import Mathlib

/-!
Verification of the Cookbook recipe-parsing and unit-conversion engine
(`app/services/csv_handler.py` and `app/services/conversion.py`).

Modelling conventions:
* Python strings are modelled as `List Char` (`Str`); `lit` injects Lean
  string literals.  Only ASCII whitespace (the characters Python's
  `str.strip`/`\s` treat as space in the inputs at hand) is modelled.
* Python floats are modelled as exact rationals (`ℚ`).  All arithmetic the
  claims exercise (table lookups, small divisions, additions, decimal
  rounding) is exact at this granularity; `round` is modelled as Python's
  round-half-to-even on rationals.  Rational arithmetic inside executable
  definitions is written with `Rat.divInt`-based helpers (`qAdd`, `qMul`,
  `qDiv`) so that closed computations reduce in the kernel; bridge lemmas
  identify them with the ordinary field operations.
* Fallible Python operations are modelled with `Option`: a `none` result of
  an exception-level model (`smart_round_metric`, `convert_to_metric`)
  means the Python code raises.
* `csv.DictReader` / `csv.DictWriter` are abstracted away: a CSV file is a
  list of `Row` records (one per data row, header excluded), matching the
  column schema.  The Python csv layer faithfully round-trips fields, so
  the codec is modelled directly on rows.
-/

set_option maxRecDepth 100000

/-- Python strings, modelled as lists of characters. -/
abbrev Str := List Char

/-- Inject a Lean string literal as a modelled Python string. -/
def lit (s : String) : Str := s.toList

/-- ASCII whitespace, as recognised by Python's `str.strip` and `\s`. -/
def isSpace (c : Char) : Bool :=
  c = ' ' ∨ c = '\t' ∨ c = '\n' ∨ c = '\r' ∨ c = '\x0b' ∨ c = '\x0c'

/-- ASCII digit, the `\d` class restricted to ASCII. -/
def isDigit (c : Char) : Bool := '0' ≤ c ∧ c ≤ '9'

/-- Model of `str.lstrip()`. -/
def stripL (t : Str) : Str := t.dropWhile isSpace

/-- Model of `str.rstrip()`. -/
def stripR (t : Str) : Str := (t.reverse.dropWhile isSpace).reverse

/-- Model of `str.strip()`. -/
def strip (t : Str) : Str := stripR (stripL t)

/-- Model of `str.lower()` (ASCII case folding). -/
def lowerStr (t : Str) : Str := t.map Char.toLower

/-- Substring test: `pat in t` for Python strings. -/
def containsSub (pat : Str) : Str → Bool
  | [] => pat.isPrefixOf []
  | c :: cs => pat.isPrefixOf (c :: cs) || containsSub pat cs

/-- Membership of a character, `c in t`. -/
def hasChar (c : Char) (t : Str) : Bool := t.contains c

/-- Model of `str.split(sep, 1)`: split at the first occurrence of `sep`. -/
def splitFirst (sep : Char) : Str → Option (Str × Str)
  | [] => none
  | c :: cs =>
      if c = sep then some ([], cs)
      else match splitFirst sep cs with
        | some (l, r) => some (c :: l, r)
        | none => none

/-- Model of `str.split(sep)` (all occurrences, keeping empty pieces). -/
def splitAllOn (sep : Char) : Str → List Str
  | [] => [[]]
  | c :: cs =>
      match splitAllOn sep cs with
      | [] => [[]]
      | p :: ps => if c = sep then [] :: p :: ps else (c :: p) :: ps

/-- Helper for `splitWs`: `cur` is the current token, reversed. -/
def splitWsAux : Str → Str → List Str
  | [], cur => if cur = [] then [] else [cur.reverse]
  | c :: cs, cur =>
      if isSpace c then
        if cur = [] then splitWsAux cs [] else cur.reverse :: splitWsAux cs []
      else splitWsAux cs (c :: cur)

/-- Model of `str.split()` with no argument: split on whitespace runs, no empties. -/
def splitWs (t : Str) : List Str := splitWsAux t []

/-- Digits to a natural number (base 10). -/
def digitsVal (t : Str) : Nat :=
  t.foldl (fun acc c => acc * 10 + (c.toNat - '0'.toNat)) 0

/-! Kernel-reducible rational arithmetic (`Rat.add` and friends are
`@[irreducible]`, so executable definitions use `Rat.divInt` forms). -/

/-- Addition on `ℚ` in `Rat.divInt` form. -/
def qAdd (a b : ℚ) : ℚ := Rat.divInt (a.num * b.den + b.num * a.den) (a.den * b.den)

/-- Multiplication on `ℚ` in `Rat.divInt` form. -/
def qMul (a b : ℚ) : ℚ := Rat.divInt (a.num * b.num) (a.den * b.den)

/-- Division on `ℚ` in `Rat.divInt` form (total; division by zero gives 0). -/
def qDiv (a b : ℚ) : ℚ := Rat.divInt (a.num * b.den) (a.den * b.num)

/-- Negation on `ℚ` in `Rat.divInt` form. -/
def qNeg (a : ℚ) : ℚ := Rat.divInt (-a.num) a.den

/-- Subtraction on `ℚ` in `Rat.divInt` form. -/
def qSub (a b : ℚ) : ℚ := qAdd a (qNeg b)

/-- Absolute value on `ℚ` in `Rat.divInt` form. -/
def qAbs (a : ℚ) : ℚ := Rat.divInt a.num.natAbs a.den

/-- An integer power of ten as a rational. -/
def qPow10 (k : ℤ) : ℚ :=
  if 0 ≤ k then Rat.divInt ((10 : ℤ) ^ k.toNat) 1
  else Rat.divInt 1 ((10 : ℤ) ^ (-k).toNat)

/-- Python `float(s)` on the decimal fragment: optional surrounding whitespace,
optional sign, then digits with an optional fractional part and an optional
decimal exponent.  (`inf`/`nan` spellings and `_` digit separators are not
modelled; no input of this repository produces them.)  `none` models
`ValueError`.
-/
def pyFloat (t : Str) : Option ℚ :=
  let t := strip t
  let (neg, t) : Bool × Str :=
    match t with
    | '-' :: r => (true, r)
    | '+' :: r => (false, r)
    | r => (false, r)
  let intPart := t.takeWhile isDigit
  let t1 := t.dropWhile isDigit
  let (fracPart, t2) : Str × Str :=
    match t1 with
    | '.' :: r => (r.takeWhile isDigit, r.dropWhile isDigit)
    | r => ([], r)
  if intPart = [] ∧ fracPart = [] then none
  else
    let mant : ℚ :=
      Rat.divInt (digitsVal intPart * 10 ^ fracPart.length + digitsVal fracPart)
        ((10 : ℤ) ^ fracPart.length)
    let signed : ℚ → ℚ := fun q => if neg then qNeg q else q
    match t2 with
    | [] => some (signed mant)
    | e :: r =>
        if e = 'e' ∨ e = 'E' then
          let (eneg, r) : Bool × Str :=
            match r with
            | '-' :: r2 => (true, r2)
            | '+' :: r2 => (false, r2)
            | r2 => (false, r2)
          let eDigits := r.takeWhile isDigit
          let r2 := r.dropWhile isDigit
          if eDigits = [] ∨ r2 ≠ [] then none
          else
            let ex : ℤ := if eneg then -(digitsVal eDigits : ℤ) else (digitsVal eDigits : ℤ)
            some (signed (qMul mant (qPow10 ex)))
        else none

/-- Python `int(s)`: optional whitespace and sign, then digits. -/
def pyInt (t : Str) : Option ℤ :=
  let t := strip t
  let (neg, t) : Bool × Str :=
    match t with
    | '-' :: r => (true, r)
    | '+' :: r => (false, r)
    | r => (false, r)
  if t ≠ [] ∧ t.all isDigit then
    some (if neg then -(digitsVal t : ℤ) else (digitsVal t : ℤ))
  else none

/-- The named-fraction table of `parse_quantity` (`csv_handler.py:248`). -/
def fraction_map : List (Str × ℚ) :=
  [ (lit "1/8", Rat.divInt 125 1000), (lit "1/4", Rat.divInt 25 100),
    (lit "1/3", Rat.divInt 33 100), (lit "3/8", Rat.divInt 375 1000),
    (lit "1/2", Rat.divInt 5 10), (lit "5/8", Rat.divInt 625 1000),
    (lit "2/3", Rat.divInt 67 100), (lit "3/4", Rat.divInt 75 100),
    (lit "7/8", Rat.divInt 875 1000) ]

/-- Association-list lookup (Python `dict.get`). -/
def alGet {α : Type} (k : Str) : List (Str × α) → Option α
  | [] => none
  | (k', v) :: rest => if k = k' then some v else alGet k rest

/-- Model of `parse_quantity` (`csv_handler.py:232`).  Mirrors the Python control flow:
mixed-number branch, named-fraction table, custom `a/b` fraction, then a
plain float parse; every internal failure falls through, and the final
fallback returns `None` (modelled as `none`).
-/
def parse_quantity (value : Str) : Option ℚ :=
  if value = [] then none
  else
    let value := strip value
    let mixed : Option ℚ :=
      match splitWs value with
      | [p0, p1] =>
          match pyFloat p0 with
          | none => none
          | some whole =>
              let fraction := (alGet p1 fraction_map).getD 0
              if fraction = 0 ∧ hasChar '/' p1 then
                match splitAllOn '/' p1 with
                | [n, d] =>
                    match pyFloat n, pyFloat d with
                    | some a, some b =>
                        if b = 0 then none else some (qAdd whole (qDiv a b))
                    | _, _ => none
                | _ => none
              else some (qAdd whole fraction)
      | _ => none
    match mixed with
    | some q => some q
    | none =>
        match alGet value fraction_map with
        | some q => some q
        | none =>
            let slash : Option ℚ :=
              if hasChar '/' value then
                match splitAllOn '/' value with
                | [n, d] =>
                    match pyFloat n, pyFloat d with
                    | some a, some b => if b = 0 then none else some (qDiv a b)
                    | _, _ => none
                | _ => none
              else none
            match slash with
            | some q => some q
            | none => pyFloat value

/-- Model of `parse_int` (`csv_handler.py:293`). -/
def parse_int (value : Str) : Option ℤ :=
  if value = [] then none else pyInt (strip value)

/-! The ingredient-line parser (`csv_handler.py:164`, `parse_single_ingredient`).
The regex `^([\d\s./]+)?\s*(u1|…|uN)?\s+(.+)$` (IGNORECASE) is modelled as an
explicit backtracking matcher with Python's semantics: each optional greedy
piece tries its longest match first and backtracks, the unit alternation is
tried in list order before being skipped, `.` does not match a newline, and
`$` accepts the end of the string or a position just before a final newline. -/

/-- The quantity-run character class `[\d\s./]`. -/
def isQClass (c : Char) : Bool := isDigit c || isSpace c || c = '.' || c = '/'

/-- Length of the leading whitespace run. -/
def wsRunLen (t : Str) : Nat := (t.takeWhile isSpace).length

/-- Length of the leading `[\d\s./]` run. -/
def classRunLen (t : Str) : Nat := (t.takeWhile isQClass).length

/-- Case-insensitive literal prefix test. -/
def insensPfx (pat t : Str) : Bool := (lowerStr pat).isPrefixOf (lowerStr t)

/-- The fixed unit vocabulary, in source order (`csv_handler.py:202`). -/
def units : List Str :=
  [ lit "cups", lit "cup", lit "tablespoons", lit "tablespoon", lit "tbsp",
    lit "teaspoons", lit "teaspoon", lit "tsp",
    lit "ounces", lit "ounce", lit "oz", lit "pounds", lit "pound",
    lit "lb", lit "lbs",
    lit "grams", lit "gram", lit "g", lit "kilograms", lit "kilogram", lit "kg",
    lit "milliliters", lit "milliliter", lit "ml", lit "liters", lit "liter",
    lit "L",
    lit "pinch", lit "dash", lit "cloves", lit "clove", lit "heads", lit "head",
    lit "slices", lit "slice", lit "pieces", lit "piece", lit "cans", lit "can",
    lit "packages", lit "package", lit "pkg", lit "bunches", lit "bunch",
    lit "sprigs", lit "sprig", lit "stalks", lit "stalk",
    lit "large", lit "medium", lit "small" ]

/-- Model of `(.+)$`: the greedy final capture.  Succeeds on a non-empty newline-free
remainder, or on a remainder whose single newline is its last character
(`$` matches just before a final newline). -/
def finalPiece (p : Str) : Option Str :=
  if p = [] then none
  else if ¬ p.contains '\n' then some p
  else if p.getLast? = some '\n' ∧ ¬ (p.dropLast.contains '\n') ∧ p.dropLast ≠ [] then
    some p.dropLast
  else none

/-- Model of `\s+(.+)$` at `r`, trying the whitespace run from length `j` downwards. -/
def tailTry (r : Str) : Nat → Option Str
  | 0 => none
  | j + 1 =>
      match finalPiece (r.drop (j + 1)) with
      | some g => some g
      | none => tailTry r j

/-- Model of `\s+(.+)$` at `r` (greedy whitespace, backtracking). -/
def tailMatch (r : Str) : Option Str := tailTry r (wsRunLen r)

/-- The unit alternation followed by `\s+(.+)$`, alternatives in list order. -/
def unitTry (t : Str) : List Str → Option (Str × Str)
  | [] => none
  | u :: us =>
      if insensPfx u t then
        match tailMatch (t.drop u.length) with
        | some g3 => some (u, g3)
        | none => unitTry t us
      else unitTry t us

/-- Model of `(u1|…|uN)?\s+(.+)$` at `t`: alternatives first, then the skip option. -/
def g2tail (t : Str) : Option (Option Str × Str) :=
  match unitTry t units with
  | some (a, g3) => some (some a, g3)
  | none =>
      match tailMatch t with
      | some g3 => some (none, g3)
      | none => none

/-- Model of `\s*(u…)?\s+(.+)$` at `t`, trying the `\s*` length from `m` downwards. -/
def starTry (t : Str) : Nat → Option (Option Str × Str)
  | 0 => g2tail t
  | m + 1 =>
      match g2tail (t.drop (m + 1)) with
      | some res => some res
      | none => starTry t m

/-- Group 1 `([\d\s./]+)` of length `k` downwards, then the rest of the
pattern. -/
def qtyTry (t : Str) : Nat → Option (Str × Option Str × Str)
  | 0 => none
  | k + 1 =>
      match starTry (t.drop (k + 1)) (wsRunLen (t.drop (k + 1))) with
      | some (u, g3) => some (t.take (k + 1), u, g3)
      | none => qtyTry t k

/-- Model of `re.match` for the full ingredient pattern: returns the three captures
`(quantity-run?, unit?, name)` of the first successful backtracking branch. -/
def matchIngredient (t : Str) : Option (Option Str × Option Str × Str) :=
  match qtyTry t (classRunLen t) with
  | some (q, u, g3) => some (some q, u, g3)
  | none =>
      match starTry t (wsRunLen t) with
      | some (u, g3) => some (none, u, g3)
      | none => none

/-- Fuelled worker for `subOptional`; the fuel is an upper bound on the
input length, so the fuel-exhausted branch is never taken. -/
def subOptGo : Nat → Str → Str
  | 0, _ => []
  | _ + 1, [] => []
  | fuel + 1, c :: cs =>
      let w1 := wsRunLen (c :: cs)
      let afterW := (c :: cs).drop w1
      if insensPfx (lit "(optional)") afterW then
        subOptGo fuel ((afterW.drop 10).drop (wsRunLen (afterW.drop 10)))
      else c :: subOptGo fuel cs

/-- Model of `re.sub(r'\s*\(optional\)\s*', '', text, flags=re.IGNORECASE)`: remove
every occurrence of the optional marker together with surrounding
whitespace, scanning left to right. -/
def subOptional (t : Str) : Str := subOptGo t.length t

/-- A parsed ingredient line (the dictionary built by
`parse_single_ingredient`). -/
structure ParsedIngredient where
  quantity : Option ℚ
  unit : Option Str
  name : Str
  preparation : Option Str
  is_optional : Bool
deriving DecidableEq

/-- The preprocessing steps of `parse_single_ingredient`: strip, extract
the optional marker, split off the preparation clause at the first comma.
Returns the working text the pattern is matched against, together with the
`preparation` and `is_optional` fields. -/
def ingPre (text : Str) : Str × Option Str × Bool :=
  let t0 := strip text
  let isOpt := containsSub (lit "(optional)") (lowerStr t0)
  let t1 := if isOpt then subOptional t0 else t0
  match splitFirst ',' t1 with
  | some (l, r) => (strip l, some (strip r), isOpt)
  | none => (t1, none, isOpt)

/-- The working text of an ingredient line (first component of `ingPre`). -/
def workText (text : Str) : Str := (ingPre text).1

/-- Model of `parse_single_ingredient` (`csv_handler.py:164`). -/
def parse_single_ingredient (text : Str) : ParsedIngredient :=
  let pre := ingPre text
  let text := pre.1
  let prep := pre.2.1
  let isOpt := pre.2.2
  match matchIngredient text with
  | some (qstr, u, g3) =>
      { quantity := match qstr with
          | some qs => parse_quantity (strip qs)
          | none => none,
        unit := u.map lowerStr,
        name := strip g3,
        preparation := prep,
        is_optional := isOpt }
  | none =>
      { quantity := none, unit := none, name := text,
        preparation := prep, is_optional := isOpt }

/-- Model of `parse_ingredients` (`csv_handler.py:135`): pipe-separated list form. -/
def parse_ingredients (s : Str) : List ParsedIngredient :=
  if s = [] then []
  else (splitAllOn '|' s).filterMap (fun item =>
    let it := strip item
    if it = [] then none else some (parse_single_ingredient it))

/-! The section splitter (`csv_handler.py:87`, `parse_sections`) and the
section-marker detector of `parse_recipe_csv` (`csv_handler.py:34`). -/

/-- Model of `re.search(r'\[.+?\]', t)` as a Boolean: some `'['` is followed, within
the same line (`.` does not match a newline), by a `']'` at distance at
least 2. -/
def hasSecMark : Str → Bool
  | [] => false
  | c :: cs =>
      (c = '[' ∧ (((cs.takeWhile (fun d => d ≠ '\n')).drop 1).contains ']')) ||
        hasSecMark cs

/-- Leftmost match of `\[([^\]]+)\]`: returns `(prefix, capture, rest)`. -/
def findMarker : Str → Option (Str × Str × Str)
  | [] => none
  | c :: cs =>
      let content := cs.takeWhile (fun d => d ≠ ']')
      if c = '[' ∧ content ≠ [] ∧ (cs.drop content.length) ≠ [] then
        some ([], content, (cs.drop content.length).drop 1)
      else
        match findMarker cs with
        | some (pre, cap, rest) => some (c :: pre, cap, rest)
        | none => none

/-- Fuelled worker for `reSplit`. -/
def reSplitGo : Nat → Str → List Str
  | 0, t => [t]
  | fuel + 1, t =>
      match findMarker t with
      | none => [t]
      | some (pre, cap, rest) => pre :: cap :: reSplitGo fuel rest

/-- Model of `re.split(r'\[([^\]]+)\]', t)`: pieces between matches interleaved with
the captured section names (always an odd-length list). -/
def reSplit (t : Str) : List Str := reSplitGo t.length t

/-- Successive `(parts[i], parts[i+1])` pairs of the section loop
(`i = 1, 3, …`); the guard `i + 1 < len(parts)` supplies `''` when the
body piece is missing. -/
def pairsOf : List Str → List (Str × Str)
  | [] => []
  | [c] => [(c, [])]
  | c :: b :: rest => (c, b) :: pairsOf rest

/-- One section record (`{'name': …, 'ingredients': …, 'instructions': …}`). -/
structure RecipeSection where
  name : Str
  ingredients : List ParsedIngredient
  instructions : Str
deriving DecidableEq

/-- Is a section with this name present?  (Python `name in sections`.) -/
def secMem (n : Str) (l : List RecipeSection) : Bool :=
  l.any (fun s => s.name = n)

/-- Model of `sections[name]['ingredients'] = v`, creating the entry (in insertion
order) if absent — Python dicts preserve insertion order. -/
def setIngs (n : Str) (v : List ParsedIngredient) (l : List RecipeSection) :
    List RecipeSection :=
  if secMem n l then
    l.map (fun s => if s.name = n then { s with ingredients := v } else s)
  else l ++ [⟨n, v, []⟩]

/-- Model of `sections[name]['instructions'] = v`, creating the entry if absent. -/
def setInstr (n : Str) (v : Str) (l : List RecipeSection) : List RecipeSection :=
  if secMem n l then
    l.map (fun s => if s.name = n then { s with instructions := v } else s)
  else l ++ [⟨n, [], v⟩]

/-- The two merging passes of `parse_sections` (`csv_handler.py:100-128`):
the ingredients pass fills per-section ingredient lists, the instructions
pass overwrites per-section instruction text, preserving first-seen
insertion order. -/
def mergeSections (ingredients_str instructions_str : Str) : List RecipeSection :=
  let s1 : List RecipeSection :=
    if ingredients_str = [] then []
    else (pairsOf (reSplit ingredients_str).tail).foldl
      (fun acc p => setIngs (strip p.1) (parse_ingredients p.2) acc) []
  if instructions_str = [] then s1
  else (pairsOf (reSplit instructions_str).tail).foldl
    (fun acc p => setInstr (strip p.1) (strip p.2) acc) s1

/-- Model of `parse_sections` (`csv_handler.py:87`): the merging passes followed by
the filter that drops sections whose merged instructions text is empty. -/
def parse_sections (ingredients_str instructions_str : Str) : List RecipeSection :=
  (mergeSections ingredients_str instructions_str).filter
    (fun s => s.instructions ≠ [])

/-! The CSV recipe codec (`csv_handler.py:7`, `parse_recipe_csv`).  A data
row of the CSV file is a `Row`; `csv.DictReader` is abstracted as the list
of data rows (header excluded, so the first data row is numbered 2). -/

/-- One data row of the CSV schema.  `parse_recipe_csv` reads the fields
with `row.get(column, '')`, so absent columns are the empty string.  The
`rest_time_minutes` column appears in the repository's CSV template but is
modelled here so that claims about it can be stated. -/
structure Row where
  title : Str := []
  category : Str := []
  description : Str := []
  prep_time_minutes : Str := []
  cook_time_minutes : Str := []
  rest_time_minutes : Str := []
  servings : Str := []
  servings_unit : Str := []
  ingredients : Str := []
  instructions : Str := []
  notes : Str := []
  source : Str := []
deriving DecidableEq

/-- The recipe dictionary built by `parse_recipe_csv`.  A sectioned recipe
carries `sections` (its `ingredients`/`instructions` fields stay at their
defaults `[]`/`""`); an unsectioned one carries `ingredients` and
`instructions` (its `sections` stays `[]`) — mirroring the two dict shapes
in the source.  The source sets no `rest_time_minutes` key, so this
structure has no such field. -/
structure ParsedRecipe where
  title : Str
  category : Option Str
  description : Option Str
  prep_time_minutes : Option ℤ
  cook_time_minutes : Option ℤ
  servings : Option ℤ
  servings_unit : Str
  has_sections : Bool
  sections : List RecipeSection := []
  ingredients : List ParsedIngredient := []
  instructions : Str := []
  notes : Option Str
  source : Option Str
deriving DecidableEq

instance : DecidableEq (Except Str ParsedRecipe) := fun x y =>
  match x, y with
  | .ok a, .ok b => decidable_of_iff (a = b) (by simp)
  | .error a, .error b => decidable_of_iff (a = b) (by simp)
  | .ok _, .error _ => isFalse (by simp)
  | .error _, .ok _ => isFalse (by simp)

/-- Model of `row.get(col, '').strip() or None`. -/
def strOrNone (s : Str) : Option Str :=
  let s := strip s
  if s = [] then none else some s

/-- Model of `row.get('servings_unit', 'servings').strip() or 'servings'`. -/
def servingsUnitOf (s : Str) : Str :=
  let s := strip s
  if s = [] then lit "servings" else s

/-- The body of the per-row `try:` block of `parse_recipe_csv`
(`csv_handler.py:23`): the validation failures that make the loop `continue`
are the `error` results.  In this typed model no other exception can arise,
so the `except` arm of the source has no separate counterpart. -/
def processRow (row : Row) : Except Str ParsedRecipe :=
  let title := strip row.title
  if title = [] then .error (lit "Title is required")
  else
    let ingredients_str := row.ingredients
    let instructions_str := strip row.instructions
    let has_sections := hasSecMark ingredients_str || hasSecMark instructions_str
    if has_sections then
      let sections := parse_sections ingredients_str instructions_str
      if sections = [] then
        .error (lit "Sectioned recipe must have at least one section with instructions")
      else
        .ok { title := title, category := strOrNone row.category,
              description := strOrNone row.description,
              prep_time_minutes := parse_int row.prep_time_minutes,
              cook_time_minutes := parse_int row.cook_time_minutes,
              servings := parse_int row.servings,
              servings_unit := servingsUnitOf row.servings_unit,
              has_sections := true, sections := sections,
              notes := strOrNone row.notes, source := strOrNone row.source }
    else
      if instructions_str = [] then .error (lit "Instructions are required")
      else
        .ok { title := title, category := strOrNone row.category,
              description := strOrNone row.description,
              prep_time_minutes := parse_int row.prep_time_minutes,
              cook_time_minutes := parse_int row.cook_time_minutes,
              servings := parse_int row.servings,
              servings_unit := servingsUnitOf row.servings_unit,
              has_sections := false,
              ingredients := parse_ingredients ingredients_str,
              instructions := instructions_str,
              notes := strOrNone row.notes, source := strOrNone row.source }

/-- The decode loop of `parse_recipe_csv` from row number `n`: successes in
order, and `(row_number, message)` error entries (the source renders each
entry as the f-string `'Row {row_number}: {message}'`, see `renderError`). -/
def parseFrom (n : Nat) : List Row → List ParsedRecipe × List (Nat × Str)
  | [] => ([], [])
  | r :: rs =>
      let rest := parseFrom (n + 1) rs
      match processRow r with
      | .ok rec => (rec :: rest.1, rest.2)
      | .error m => (rest.1, (n, m) :: rest.2)

/-- Model of `parse_recipe_csv` (`csv_handler.py:7`): rows are enumerated from 2
(the header is row 1). -/
def parse_recipe_csv (rows : List Row) : List ParsedRecipe × List (Nat × Str) :=
  parseFrom 2 rows

/-- Decimal digits of a natural number (fuelled worker). -/
def natStrGo : Nat → Nat → Str
  | 0, _ => []
  | fuel + 1, n =>
      if n < 10 then [Char.ofNat ('0'.toNat + n)]
      else natStrGo fuel (n / 10) ++ [Char.ofNat ('0'.toNat + n % 10)]

/-- Model of `str(n)` for a natural number. -/
def natStr (n : Nat) : Str := natStrGo (n + 1) n

/-- Model of `f'Row {row_num}: {message}'`: how the source renders an error entry. -/
def renderError (e : Nat × Str) : Str :=
  lit "Row " ++ natStr e.1 ++ lit ": " ++ e.2

/-! CSV export (`csv_handler.py:303` `format_ingredient`,
`csv_handler.py:318` `create_csv_export`). -/

/-- Model of `' '.join` / `'|'.join`-style concatenation with a separator. -/
def joinSep (sep : Str) : List Str → Str
  | [] => []
  | [x] => x
  | x :: y :: rest => x ++ sep ++ joinSep sep (y :: rest)

/-- Model of `str(n)` for an integer. -/
def intStr (n : ℤ) : Str :=
  if n < 0 then '-' :: natStr n.natAbs else natStr n.natAbs

/-- Zero-padded decimal digits (for the fractional part of a float repr). -/
def natStrPad (width : Nat) (n : Nat) : Str :=
  let d := natStr n
  List.replicate (width - d.length) '0' ++ d

/-- Model of `str(x)` for a Python float, on rationals with a finite decimal
expansion: an integral value renders as `"n.0"`, otherwise the shortest
exact decimal form — matching CPython's `repr` on every such value that
fits a double.  Rationals without a finite decimal expansion (which
CPython would show as a 17-digit approximation of the nearest double) get
a fallback spelling; no theorem below depends on that case. -/
def floatRepr (q : ℚ) : Str :=
  let sign : Str := if q.num < 0 then lit "-" else []
  let n := q.num.natAbs
  let d := q.den
  match (List.range 18).find? (fun k => 10 ^ k % d = 0) with
  | some 0 => sign ++ natStr (n / d) ++ lit ".0"
  | some k => sign ++ natStr (n / d) ++ lit "." ++ natStrPad k (n * 10 ^ k / d % 10 ^ k)
  | none => sign ++ natStr n ++ lit "/" ++ natStr d

/-- Model of `format_ingredient` (`csv_handler.py:303`).  Note the Python truthiness
tests: a quantity of `0`, an empty unit, an empty preparation and a false
optional flag all contribute nothing. -/
def format_ingredient (ing : ParsedIngredient) : Str :=
  let parts : List Str :=
    (match ing.quantity with
      | some q => if q = 0 then [] else [floatRepr q]
      | none => [])
    ++ (match ing.unit with
      | some u => if u = [] then [] else [u]
      | none => [])
    ++ [ing.name]
    ++ (match ing.preparation with
      | some p => if p = [] then [] else [lit ", " ++ p]
      | none => [])
    ++ (if ing.is_optional then [lit " (optional)"] else [])
  joinSep (lit " ") parts

/-- Model of `recipe.prep_time_minutes or ''` as a CSV field: `None` and `0` both
render blank (Python truthiness). -/
def optIntField (o : Option ℤ) : Str :=
  match o with
  | some n => if n = 0 then [] else intStr n
  | none => []

/-- The row written for one recipe by `create_csv_export`
(`csv_handler.py:337`).  The category reference is resolved to its name
(`recipe.category.name if recipe.category else ''`); the export schema has
no `rest_time_minutes` column, so that field stays blank. -/
def encodeRecipeRow (r : ParsedRecipe) : Row :=
  let ingredients_str : Str :=
    if r.has_sections then
      joinSep [] (r.sections.filterMap (fun s =>
        let formatted := s.ingredients.map format_ingredient
        if formatted = [] then none
        else some ('[' :: s.name ++ [']'] ++ joinSep (lit "|") formatted)))
    else joinSep (lit "|") (r.ingredients.map format_ingredient)
  let instructions_str : Str :=
    if r.has_sections then
      joinSep [] (r.sections.filterMap (fun s =>
        if s.instructions = [] then none
        else some ('[' :: s.name ++ [']'] ++ s.instructions)))
    else r.instructions
  { title := r.title,
    category := r.category.getD [],
    description := r.description.getD [],
    prep_time_minutes := optIntField r.prep_time_minutes,
    cook_time_minutes := optIntField r.cook_time_minutes,
    rest_time_minutes := [],
    servings := optIntField r.servings,
    servings_unit := if r.servings_unit = [] then lit "servings" else r.servings_unit,
    ingredients := ingredients_str,
    instructions := instructions_str,
    notes := r.notes.getD [],
    source := r.source.getD [] }

/-! The unit-conversion engine (`app/services/conversion.py`). -/

/-- Model of `CONVERSIONS` (`conversion.py:4`): US unit → (metric unit, factor). -/
def CONVERSIONS : List (Str × Str × ℚ) :=
  [ (lit "cup", (lit "ml", Rat.divInt 236588 1000)),
    (lit "cups", (lit "ml", Rat.divInt 236588 1000)),
    (lit "tbsp", (lit "ml", Rat.divInt 14787 1000)),
    (lit "tablespoon", (lit "ml", Rat.divInt 14787 1000)),
    (lit "tablespoons", (lit "ml", Rat.divInt 14787 1000)),
    (lit "tsp", (lit "ml", Rat.divInt 4929 1000)),
    (lit "teaspoon", (lit "ml", Rat.divInt 4929 1000)),
    (lit "teaspoons", (lit "ml", Rat.divInt 4929 1000)),
    (lit "fl oz", (lit "ml", Rat.divInt 29574 1000)),
    (lit "fluid ounce", (lit "ml", Rat.divInt 29574 1000)),
    (lit "fluid ounces", (lit "ml", Rat.divInt 29574 1000)),
    (lit "quart", (lit "L", Rat.divInt 946 1000)),
    (lit "quarts", (lit "L", Rat.divInt 946 1000)),
    (lit "gallon", (lit "L", Rat.divInt 3785 1000)),
    (lit "gallons", (lit "L", Rat.divInt 3785 1000)),
    (lit "pint", (lit "ml", Rat.divInt 473176 1000)),
    (lit "pints", (lit "ml", Rat.divInt 473176 1000)),
    (lit "oz", (lit "g", Rat.divInt 283495 10000)),
    (lit "ounce", (lit "g", Rat.divInt 283495 10000)),
    (lit "ounces", (lit "g", Rat.divInt 283495 10000)),
    (lit "lb", (lit "g", Rat.divInt 453592 1000)),
    (lit "lbs", (lit "g", Rat.divInt 453592 1000)),
    (lit "pound", (lit "g", Rat.divInt 453592 1000)),
    (lit "pounds", (lit "g", Rat.divInt 453592 1000)),
    (lit "inch", (lit "cm", Rat.divInt 254 100)),
    (lit "inches", (lit "cm", Rat.divInt 254 100)),
    (lit "in", (lit "cm", Rat.divInt 254 100)) ]

/-- Model of `METRIC_TO_US` (`conversion.py:40`): metric unit → (US unit, factor).
Note the `'L'` key is upper case, exactly as in the source. -/
def METRIC_TO_US : List (Str × Str × ℚ) :=
  [ (lit "ml", (lit "tsp", Rat.divInt 203 1000)),
    (lit "L", (lit "quart", Rat.divInt 1057 1000)),
    (lit "g", (lit "oz", Rat.divInt 353 10000)),
    (lit "kg", (lit "lb", Rat.divInt 2205 1000)),
    (lit "cm", (lit "inch", Rat.divInt 394 1000)) ]

/-- Model of `METRIC_ROUND_VALUES` (`conversion.py:54`). -/
def METRIC_ROUND_VALUES : List (Str × List ℚ) :=
  [ (lit "ml", [5, 10, 15, 25, 50, 75, 100, 125, 150, 175, 200, 250, 300,
      350, 400, 450, 500, 750, 1000]),
    (lit "g", [5, 10, 15, 25, 50, 75, 100, 125, 150, 175, 200, 225, 250,
      300, 350, 400, 450, 500, 750, 1000]),
    (lit "L", [Rat.divInt 25 100, Rat.divInt 5 10, Rat.divInt 75 100, 1,
      Rat.divInt 15 10, 2, Rat.divInt 25 10, 3, 4, 5]),
    (lit "cm", [1, 2, Rat.divInt 25 10, 3, 4, 5, 6, 7, 8, 9, 10, 12, 15,
      20, 25, 30]) ]

/-- Floor of a rational, in kernel-reducible form. -/
def qFloor (q : ℚ) : ℤ := Int.fdiv q.num q.den

/-- Python `round(x)`: round half to even, to an integer. -/
def pyRound (x : ℚ) : ℤ :=
  let f := qFloor x
  let r := qSub x (Rat.divInt f 1)
  if r < Rat.divInt 1 2 then f
  else if Rat.divInt 1 2 < r then f + 1
  else if f % 2 = 0 then f else f + 1

/-- Python `round(x, 1)`. -/
def pyRound1 (x : ℚ) : ℚ := Rat.divInt (pyRound (qMul x 10)) 10

/-- Python `round(x, 2)`. -/
def pyRound2 (x : ℚ) : ℚ := Rat.divInt (pyRound (qMul x 100)) 100

/-- Model of `min(thresholds, key=lambda x: abs(x - value))`: first minimum wins,
as with Python's `min`. -/
def minByAbs (l : List ℚ) (v : ℚ) : ℚ :=
  match l with
  | [] => 0
  | x :: xs => xs.foldl (fun best y =>
      if qAbs (qSub y v) < qAbs (qSub best v) then y else best) x

/-- Model of `smart_round_metric` (`conversion.py:118`).  The source computes
`abs(closest - value) / value`, which raises `ZeroDivisionError` when
`value` is `0` and a threshold table exists; that exception is the `none`
result. -/
def smart_round_metric (value : ℚ) (unit : Str) : Option ℚ :=
  match alGet unit METRIC_ROUND_VALUES with
  | none => some (pyRound1 value)
  | some thresholds =>
      let closest := minByAbs thresholds value
      if value = 0 then none
      else if qDiv (qAbs (qSub closest value)) value ≤ Rat.divInt 15 100 then
        some closest
      else if Rat.divInt 100 1 ≤ value then
        some (Rat.divInt (5 * pyRound (qDiv value 5)) 1)
      else if Rat.divInt 10 1 ≤ value then some (Rat.divInt (pyRound value) 1)
      else some (pyRound1 value)

/-- Model of `convert_to_metric` (`conversion.py:62`).  The outer `Option` is the
exception level: `none` means the call raises (via `smart_round_metric`). -/
def convert_to_metric (quantity : Option ℚ) (unit : Str) :
    Option (Option ℚ × Str) :=
  match quantity with
  | none => some (none, unit)
  | some q =>
      let unit_lower := lowerStr unit
      match alGet unit_lower CONVERSIONS with
      | none => some (some q, unit)
      | some (metric_unit, factor) =>
          (smart_round_metric (qMul q factor) metric_unit).map
            (fun v => (some v, metric_unit))

/-- Model of `convert_to_us` (`conversion.py:90`): total, US-bound results are
rounded to two decimal places. -/
def convert_to_us (quantity : Option ℚ) (unit : Str) : Option ℚ × Str :=
  match quantity with
  | none => (none, unit)
  | some q =>
      let unit_lower := lowerStr unit
      match alGet unit_lower METRIC_TO_US with
      | none => (some q, unit)
      | some (us_unit, factor) => (some (pyRound2 (qMul q factor)), us_unit)

/-! Specification-side definitions for claim C6, following the claim's own
words (to be compared with the `smart_round_metric` implementation):
"the converted value snaps to the closest threshold exactly when its
relative distance from the raw product is at most 15%, and otherwise rounds
to the nearest multiple of 5 if the raw value is at least 100, to the
nearest integer if at least 10, and to one decimal place below 10". -/

/-- Claim-modelled: `t` is a threshold closest to `raw`. -/
def isNearestThreshold (th : List ℚ) (raw t : ℚ) : Prop :=
  t ∈ th ∧ ∀ u ∈ th, |t - raw| ≤ |u - raw|

/-- Claim-modelled: the coarse-rounding fallback described by the claim —
a nearest multiple of 5 at `raw ≥ 100`, a nearest integer at `raw ≥ 10`, a
nearest multiple of one tenth below 10. -/
def coarseRoundSpec (raw v : ℚ) : Prop :=
  (100 ≤ raw → (∃ k : ℤ, v = 5 * k) ∧ ∀ k : ℤ, |v - raw| ≤ |5 * (k : ℚ) - raw|) ∧
  (10 ≤ raw ∧ raw < 100 → (∃ k : ℤ, v = k) ∧ ∀ k : ℤ, |v - raw| ≤ |(k : ℚ) - raw|) ∧
  (raw < 10 → (∃ k : ℤ, v = (k : ℚ) / 10) ∧ ∀ k : ℤ, |v - raw| ≤ |(k : ℚ) / 10 - raw|)

/-! Concrete fixtures used by the claim theorems. -/

/-- A row whose `title` is blank after trimming. -/
def blankTitleRow : Row := { title := lit "  ", instructions := lit "mix" }

/-- A well-formed unsectioned row. -/
def goodRow : Row := { title := lit "Salad", instructions := lit "toss" }

/-- The recipe decoded from `goodRow`. -/
def goodRec : ParsedRecipe :=
  { title := lit "Salad", category := none, description := none,
    prep_time_minutes := none, cook_time_minutes := none, servings := none,
    servings_unit := lit "servings", has_sections := false, sections := [],
    ingredients := [], instructions := lit "toss", notes := none, source := none }

/-- Claim C3's failing input: an unsectioned row with an ingredient whose
parsed quantity is `0`. -/
def c3row : Row :=
  { title := lit "t", ingredients := lit "0 cups flour", instructions := lit "mix" }

/-- The recipe decoded from `c3row` (quantity `0` on the only ingredient). -/
def c3rec : ParsedRecipe :=
  { title := lit "t", category := none, description := none,
    prep_time_minutes := none, cook_time_minutes := none, servings := none,
    servings_unit := lit "servings", has_sections := false, sections := [],
    ingredients := [⟨some 0, some (lit "cups"), lit "flour", none, false⟩],
    instructions := lit "mix", notes := none, source := none }

/-- The recipe decoded from the re-encoded `c3rec`: the quantity is gone. -/
def c3rec2 : ParsedRecipe :=
  { title := lit "t", category := none, description := none,
    prep_time_minutes := none, cook_time_minutes := none, servings := none,
    servings_unit := lit "servings", has_sections := false, sections := [],
    ingredients := [⟨none, some (lit "cups"), lit "flour", none, false⟩],
    instructions := lit "mix", notes := none, source := none }

/-- Claim C8's failing input: a valid row carrying `rest_time_minutes = "30"`
(as the repository's CSV template documents), plus one parseable and one
unparseable time column. -/
def c8row : Row :=
  { title := lit "Bread", instructions := lit "Bake.",
    prep_time_minutes := lit "15", cook_time_minutes := lit "abc",
    rest_time_minutes := lit "30" }

/-- A sectioned row (marker in `ingredients`) in which no section survives:
the only section has ingredients but no instructions text. -/
def c4row : Row :=
  { title := lit "Pie", ingredients := lit "[Shell]2 cups flour",
    instructions := lit "" }

/-- Model of `(processRow r).toOption`: the per-row success projection. -/
def rowOk (r : Row) : Option ParsedRecipe := (processRow r).toOption

/-- The recipe decoded from `c8row`: `prep_time_minutes` is parsed,
the unparseable `cook_time_minutes` becomes `none`, the blank `servings`
becomes `none`, and nothing records `rest_time_minutes = "30"`. -/
def c8rec : ParsedRecipe :=
  { title := lit "Bread", category := none, description := none,
    prep_time_minutes := some 15, cook_time_minutes := none, servings := none,
    servings_unit := lit "servings", has_sections := false, sections := [],
    ingredients := [], instructions := lit "Bake.", notes := none, source := none }

/-- All instruction texts in the accumulator equal their own trim. -/
def instrStripped (l : List RecipeSection) : Prop :=
  ∀ s ∈ l, strip s.instructions = s.instructions

/-- The last character (if any) is not whitespace. -/
def lastNotSpace (t : Str) : Prop :=
  ∀ c, t.getLast? = some c → isSpace c = false

/-! Helper lemmas about the decode loop. -/

/-! Bridge lemmas identifying the kernel-reducible rational operations
with the standard field operations on `ℚ`. -/

@[simp] theorem qAdd_eq (a b : ℚ) : qAdd a b = a + b := by
  rw [qAdd, Rat.add_def, Rat.normalize_eq_mkRat, Rat.mkRat_eq_divInt]
  norm_num [mul_comm]

@[simp] theorem qMul_eq (a b : ℚ) : qMul a b = a * b := by
  rw [qMul, Rat.mul_def, Rat.normalize_eq_mkRat, Rat.mkRat_eq_divInt]
  norm_num

@[simp] theorem qNeg_eq (a : ℚ) : qNeg a = -a := by
  rw [qNeg, Rat.neg_def]

@[simp] theorem qSub_eq (a b : ℚ) : qSub a b = a - b := by
  rw [qSub, qAdd_eq, qNeg_eq, sub_eq_add_neg]

@[simp] theorem qDiv_eq (a b : ℚ) : qDiv a b = a / b := by
  rcases eq_or_ne b 0 with rfl | hb
  · simp [qDiv]
  · have hbn : b.num ≠ 0 := Rat.num_ne_zero.mpr hb
    have had : (a.den : ℤ) ≠ 0 := by exact_mod_cast a.den_nz
    have hx : a / b = Rat.divInt (a.num * (b.den : ℤ)) ((a.den : ℤ) * b.num) := by
      rw [div_eq_mul_inv, Rat.inv_def']
      conv_lhs => rw [← Rat.num_divInt_den a]
      rw [Rat.divInt_mul_divInt _ _ had hbn]
    rw [qDiv, hx]

@[simp] theorem qAbs_eq (a : ℚ) : qAbs a = |a| := by
  rcases le_or_lt 0 a.num with h | h
  · have h0 : 0 ≤ a := Rat.num_nonneg.mp h
    rw [abs_of_nonneg h0, qAbs, Int.natAbs_of_nonneg h, Rat.num_divInt_den]
  · have h0 : a < 0 := by
      by_contra hc
      exact absurd (Rat.num_nonneg.mpr (not_lt.mp hc)) (not_le.mpr h)
    rw [abs_of_neg h0, qAbs, Int.ofNat_natAbs_of_nonpos (le_of_lt h),
      ← Rat.neg_divInt, Rat.num_divInt_den]

@[simp] theorem qPow10_eq (k : ℤ) : qPow10 k = (10 : ℚ) ^ k := by
  rcases le_or_lt 0 k with h | h
  · rw [qPow10, if_pos h]
    rw [show Rat.divInt ((10:ℤ) ^ k.toNat) 1 = ((10:ℤ) ^ k.toNat : ℤ) from Rat.divInt_one _]
    push_cast
    rw [← zpow_natCast, Int.toNat_of_nonneg h]
  · rw [qPow10, if_neg (not_le.mpr h)]
    have : Rat.divInt 1 ((10:ℤ) ^ (-k).toNat) = ((10 : ℚ) ^ (-k).toNat)⁻¹ := by
      rw [Rat.divInt_eq_div]
      push_cast
      rw [one_div]
    rw [this, ← zpow_natCast, Int.toNat_of_nonneg (by omega), ← zpow_neg, neg_neg]

theorem qFloor_eq (q : ℚ) : qFloor q = ⌊q⌋ := by
  rw [qFloor, Rat.floor_def]
  exact Int.fdiv_eq_ediv _ (by positivity)


theorem parseFrom_fst (n : Nat) (rows : List Row) :
    (parseFrom n rows).1 = rows.filterMap rowOk := by
  induction rows generalizing n with
  | nil => rfl
  | cons r rs ih =>
      rcases hp : processRow r with m | rec <;>
        simp [parseFrom, hp, rowOk, Except.toOption, ih (n + 1)]

theorem parseFrom_err_lb (n : Nat) (rows : List Row) :
    ∀ e ∈ (parseFrom n rows).2, n ≤ e.1 := by
  induction rows generalizing n with
  | nil => intro e he; simp [parseFrom] at he
  | cons r rs ih =>
      intro e he
      rcases hp : processRow r with m | rec <;> rw [parseFrom] at he <;>
        simp only [hp] at he
      · rcases List.mem_cons.mp he with rfl | hmem
        · exact le_refl _
        · exact Nat.le_of_succ_le (ih (n + 1) e hmem)
      · exact Nat.le_of_succ_le (ih (n + 1) e he)

theorem parseFrom_err_mem (n : Nat) (rows : List Row) (i : Nat)
    (h : i < rows.length) (m : Str)
    (hm : processRow (rows.get ⟨i, h⟩) = .error m) :
    (n + i, m) ∈ (parseFrom n rows).2 := by
  induction rows generalizing n i with
  | nil => simp at h
  | cons r rs ih =>
      cases i with
      | zero =>
          simp only [List.get] at hm
          simp [parseFrom, hm]
      | succ j =>
          have hj : j < rs.length := Nat.lt_of_succ_lt_succ h
          have hm' : processRow (rs.get ⟨j, hj⟩) = .error m := hm
          have := ih (n + 1) j hj hm'
          have harith : n + 1 + j = n + (j + 1) := by omega
          rcases hp : processRow r with m0 | rec <;>
        simp only [parseFrom, hp] <;> rw [← harith]
          · exact List.mem_cons_of_mem _ this
          · exact this

theorem parseFrom_err_count (n : Nat) (rows : List Row) (i : Nat)
    (h : i < rows.length) (m : Str)
    (hm : processRow (rows.get ⟨i, h⟩) = .error m) :
    (parseFrom n rows).2.countP (fun e => e.1 == n + i) = 1 := by
  induction rows generalizing n i with
  | nil => simp at h
  | cons r rs ih =>
      cases i with
      | zero =>
          simp only [List.get] at hm
          have hzero : (parseFrom (n + 1) rs).2.countP (fun e => e.1 == n) = 0 := by
            apply List.countP_eq_zero.mpr
            intro e he
            have := parseFrom_err_lb (n + 1) rs e he
            simp only [beq_iff_eq]
            omega
          simp only [parseFrom, hm, Nat.add_zero, List.countP_cons, hzero]
          simp
      | succ j =>
          have hj : j < rs.length := Nat.lt_of_succ_lt_succ h
          have hm' : processRow (rs.get ⟨j, hj⟩) = .error m := hm
          have hcount := ih (n + 1) j hj hm'
          have harith : n + 1 + j = n + (j + 1) := by omega
          rw [harith] at hcount
          rcases hp : processRow r with m0 | rec <;> simp only [parseFrom, hp]
          · rw [List.countP_cons]
            have : ((n, m0).1 == n + (j + 1)) = false := by
              simp only [beq_eq_false_iff_ne]
              omega
            simp [this, hcount]
          · exact hcount

theorem parseFrom_len (n : Nat) (rows : List Row) :
    (parseFrom n rows).1.length + (parseFrom n rows).2.length = rows.length := by
  induction rows generalizing n with
  | nil => rfl
  | cons r rs ih =>
      rcases hp : processRow r with m | rec <;> simp only [parseFrom, hp] <;>
        simp [List.length_cons] <;> have := ih (n + 1) <;> omega

theorem parseFrom_err_elem (n : Nat) (rows : List Row) :
    ∀ e ∈ (parseFrom n rows).2, ∃ (i : Nat) (h : i < rows.length),
      e.1 = n + i ∧ processRow (rows.get ⟨i, h⟩) = .error e.2 := by
  induction rows generalizing n with
  | nil => intro e he; simp [parseFrom] at he
  | cons r rs ih =>
      intro e he
      rcases hp : processRow r with m | rec <;> rw [parseFrom] at he <;>
        simp only [hp] at he
      · rcases List.mem_cons.mp he with rfl | hmem
        · exact ⟨0, Nat.succ_pos _, by simp, by simpa using hp⟩
        · obtain ⟨i, hi, he1, he2⟩ := ih (n + 1) e hmem
          exact ⟨i + 1, Nat.succ_lt_succ hi, by omega, he2⟩
      · obtain ⟨i, hi, he1, he2⟩ := ih (n + 1) e he
        exact ⟨i + 1, Nat.succ_lt_succ hi, by omega, he2⟩

theorem filterMap_eraseIdx {α β : Type} (f : α → Option β) (l : List α)
    (i : Nat) (h : i < l.length) (hf : f (l.get ⟨i, h⟩) = none) :
    l.filterMap f = (l.eraseIdx i).filterMap f := by
  induction l generalizing i with
  | nil => simp at h
  | cons x xs ih =>
      cases i with
      | zero =>
          simp only [List.get] at hf
          simp [List.eraseIdx, List.filterMap_cons, hf]
      | succ j =>
          have hj : j < xs.length := Nat.lt_of_succ_lt_succ h
          have hf' : f (xs.get ⟨j, hj⟩) = none := hf
          simp only [List.eraseIdx, List.filterMap_cons]
          rw [ih j hj hf']

theorem processRow_blank_title {r : Row} (h : strip r.title = []) :
    processRow r = .error (lit "Title is required") := by
  simp [processRow, h]

theorem alGet_mem {α : Type} (k : Str) (l : List (Str × α)) (v : α)
    (h : alGet k l = some v) : (k, v) ∈ l := by
  induction l with
  | nil => simp [alGet] at h
  | cons p rest ih =>
      obtain ⟨k', v'⟩ := p
      rw [alGet] at h
      by_cases hk : k = k'
      · rw [if_pos hk] at h
        injection h with h
        subst hk; subst h
        exact List.mem_cons_self _ _
      · rw [if_neg hk] at h
        exact List.mem_cons_of_mem _ (ih h)

theorem smart_round_total (value : ℚ) (unit : Str) (h : value ≠ 0) :
    ∃ v, smart_round_metric value unit = some v := by
  rw [smart_round_metric]
  cases alGet unit METRIC_ROUND_VALUES with
  | none => exact ⟨_, rfl⟩
  | some th =>
      simp only [if_neg h]
      split_ifs <;> exact ⟨_, rfl⟩

theorem strip_of_all_space (s : Str) (h : ∀ c ∈ s, isSpace c) : strip s = [] := by
  have h1 : stripL s = [] := by
    rw [stripL, List.dropWhile_eq_nil_iff]
    exact h
  rw [strip, h1]
  rfl

theorem parse_quantity_of_strip_nil (s : Str) (h1 : s ≠ []) (h2 : strip s = []) :
    parse_quantity s = none := by
  rw [parse_quantity, if_neg h1, h2]
  decide

/-- C1: a data row whose `title` is blank after trimming produces exactly
one error entry carrying that row's number (the first data row is row 2),
with the message `Title is required`; it contributes no recipe and removing
it changes no other row's decoding; and the decoded recipes are exactly the
per-row successes in input row order. -/
theorem claim_C1 : ∀ (rows : List Row) (i : Nat) (h : i < rows.length),
    strip (rows.get ⟨i, h⟩).title = [] →
    (parse_recipe_csv rows).2.countP (fun e => e.1 == i + 2) = 1 ∧
    (i + 2, lit "Title is required") ∈ (parse_recipe_csv rows).2 ∧
    (parse_recipe_csv rows).1 = (parse_recipe_csv (rows.eraseIdx i)).1 ∧
    (parse_recipe_csv rows).1 = rows.filterMap rowOk := by
  intro rows i h htitle
  have herr : processRow (rows.get ⟨i, h⟩) = .error (lit "Title is required") :=
    processRow_blank_title htitle
  refine ⟨?_, ?_, ?_, parseFrom_fst 2 rows⟩
  · have := parseFrom_err_count 2 rows i h _ herr
    simpa [Nat.add_comm] using this
  · have := parseFrom_err_mem 2 rows i h _ herr
    simpa [Nat.add_comm] using this
  · rw [parse_recipe_csv, parse_recipe_csv, parseFrom_fst, parseFrom_fst]
    refine filterMap_eraseIdx rowOk rows i h ?_
    rw [rowOk, herr]
    rfl

/-- Witness for C1 at a concrete two-row input: one blank-title row, one
valid row. -/
theorem claim_C1_witness :
    (parse_recipe_csv [blankTitleRow, goodRow]).2.countP (fun e => e.1 == 0 + 2) = 1 ∧
    (0 + 2, lit "Title is required") ∈ (parse_recipe_csv [blankTitleRow, goodRow]).2 ∧
    (parse_recipe_csv [blankTitleRow, goodRow]).1 =
      (parse_recipe_csv ([blankTitleRow, goodRow].eraseIdx 0)).1 ∧
    (parse_recipe_csv [blankTitleRow, goodRow]).1 =
      [blankTitleRow, goodRow].filterMap rowOk :=
  claim_C1 [blankTitleRow, goodRow] 0 (by norm_num) (by decide)

/-- C2: every named fraction token parses to exactly its table value (the
thirds intentionally lossy), `"1 1/2"` parses to `1.5`, and empty,
whitespace-only, or unparseable input yields `none` without raising. -/
theorem claim_C2 :
    parse_quantity (lit "1/8") = some ((1 : ℚ)/8) ∧
    parse_quantity (lit "1/4") = some ((1 : ℚ)/4) ∧
    parse_quantity (lit "1/3") = some ((33 : ℚ)/100) ∧
    parse_quantity (lit "3/8") = some ((3 : ℚ)/8) ∧
    parse_quantity (lit "1/2") = some ((1 : ℚ)/2) ∧
    parse_quantity (lit "5/8") = some ((5 : ℚ)/8) ∧
    parse_quantity (lit "2/3") = some ((67 : ℚ)/100) ∧
    parse_quantity (lit "3/4") = some ((3 : ℚ)/4) ∧
    parse_quantity (lit "7/8") = some ((7 : ℚ)/8) ∧
    parse_quantity (lit "1 1/2") = some ((3 : ℚ)/2) ∧
    parse_quantity (lit "") = none ∧
    parse_quantity (lit "abc") = none ∧
    (∀ s : Str, s ≠ [] → (∀ c ∈ s, isSpace c) → parse_quantity s = none) := by
  refine ⟨?_, ?_, ?_, ?_, ?_, ?_, ?_, ?_, ?_, ?_, by decide, by decide, ?_⟩
  · rw [show parse_quantity (lit "1/8") = some (Rat.divInt 1 8) from by decide,
      Rat.divInt_eq_div]; norm_num
  · rw [show parse_quantity (lit "1/4") = some (Rat.divInt 1 4) from by decide,
      Rat.divInt_eq_div]; norm_num
  · rw [show parse_quantity (lit "1/3") = some (Rat.divInt 33 100) from by decide,
      Rat.divInt_eq_div]; norm_num
  · rw [show parse_quantity (lit "3/8") = some (Rat.divInt 3 8) from by decide,
      Rat.divInt_eq_div]; norm_num
  · rw [show parse_quantity (lit "1/2") = some (Rat.divInt 1 2) from by decide,
      Rat.divInt_eq_div]; norm_num
  · rw [show parse_quantity (lit "5/8") = some (Rat.divInt 5 8) from by decide,
      Rat.divInt_eq_div]; norm_num
  · rw [show parse_quantity (lit "2/3") = some (Rat.divInt 67 100) from by decide,
      Rat.divInt_eq_div]; norm_num
  · rw [show parse_quantity (lit "3/4") = some (Rat.divInt 3 4) from by decide,
      Rat.divInt_eq_div]; norm_num
  · rw [show parse_quantity (lit "7/8") = some (Rat.divInt 7 8) from by decide,
      Rat.divInt_eq_div]; norm_num
  · rw [show parse_quantity (lit "1 1/2") = some (Rat.divInt 3 2) from by decide,
      Rat.divInt_eq_div]; norm_num
  · intro s h1 h2
    exact parse_quantity_of_strip_nil s h1 (strip_of_all_space s h2)

/-- Witness for C2's whitespace-only clause at the concrete input `" "`. -/
theorem claim_C2_witness : parse_quantity (lit " ") = none :=
  claim_C2.2.2.2.2.2.2.2.2.2.2.2.2 (lit " ") (by decide) (by decide)

/-- C3 (code bug): decoding the row `"0 cups flour"` yields quantity `0`,
but `format_ingredient`'s Python truthiness test drops a zero quantity, so
encoding and re-decoding loses it — the round trip is not an item-by-item
equivalence. -/
theorem claim_C3_eval :
    processRow c3row = .ok c3rec ∧
    c3rec.has_sections = false ∧
    c3rec.ingredients = [⟨some 0, some (lit "cups"), lit "flour", none, false⟩] ∧
    (encodeRecipeRow c3rec).ingredients = lit "cups flour" ∧
    processRow (encodeRecipeRow c3rec) = .ok c3rec2 ∧
    c3rec2.ingredients = [⟨none, some (lit "cups"), lit "flour", none, false⟩] ∧
    c3rec2.instructions = c3rec.instructions := by decide

/-- C7 (code bug): the `METRIC_TO_US` table declares `'L' → ('quart', 1.057)`,
but the lookup lower-cases the unit first, so the entry is unreachable:
`convert_to_us(1, "L")` passes through unchanged instead of converting to
quarts, while the lower-case keys (`ml`, `g`, `kg`, `cm`) convert as the
claim says. -/
theorem claim_C7_eval :
    convert_to_us (some 1) (lit "L") = (some 1, lit "L") ∧
    convert_to_us (some 1) (lit "l") = (some 1, lit "l") ∧
    alGet (lit "L") METRIC_TO_US = some (lit "quart", Rat.divInt 1057 1000) ∧
    alGet (lowerStr (lit "L")) METRIC_TO_US = none ∧
    convert_to_us (some 1000) (lit "ml") = (some 203, lit "tsp") ∧
    convert_to_us (some 2) (lit "KG") = (some (Rat.divInt 441 100), lit "lb") := by
  decide

/-- C8 (code bug): `prep_time_minutes`, `cook_time_minutes` and `servings`
are parsed as optional integers (blank/unparseable → `none`, never an
error), but `rest_time_minutes` is silently ignored: the decoded recipe is
identical whether the column holds `"30"` or is blank, even though the
repository's CSV template documents the column and the importer reads it. -/
theorem claim_C8_eval :
    processRow c8row = .ok c8rec ∧
    processRow { c8row with rest_time_minutes := [] } = .ok c8rec ∧
    c8rec.prep_time_minutes = some 15 ∧
    c8rec.cook_time_minutes = none ∧
    c8rec.servings = none ∧
    parse_int (lit "30") = some 30 ∧
    parse_int (lit "abc") = none ∧
    parse_int (lit "") = none := by decide

/-- C9: decoding is total and per-row: every input row contributes exactly
one output (a recipe or an error), every error entry carries a row number
`i + 2` for the row that produced it together with that row's failure
message, and a failing row never stops the rows after it from being
decoded. -/
theorem claim_C9 : ∀ rows : List Row,
    (parse_recipe_csv rows).1.length + (parse_recipe_csv rows).2.length =
      rows.length ∧
    ∀ e ∈ (parse_recipe_csv rows).2, ∃ (i : Nat) (h : i < rows.length),
      e.1 = i + 2 ∧ processRow (rows.get ⟨i, h⟩) = .error e.2 := by
  intro rows
  refine ⟨parseFrom_len 2 rows, ?_⟩
  intro e he
  obtain ⟨i, hi, h1, h2⟩ := parseFrom_err_elem 2 rows e he
  exact ⟨i, hi, by omega, h2⟩

/-- Witness for C9 at a concrete one-row input whose row fails. -/
theorem claim_C9_witness :
    ∃ (i : Nat) (h : i < ([blankTitleRow] : List Row).length),
      (2, lit "Title is required").1 = i + 2 ∧
      processRow (([blankTitleRow] : List Row).get ⟨i, h⟩) =
        .error (2, lit "Title is required").2 :=
  (claim_C9 [blankTitleRow]).2 (2, lit "Title is required") (by decide)

/-- C10 counterexample: at quantity `0` with a known unit, the smart-rounding
step divides by the raw value and raises `ZeroDivisionError` (`none` at the
exception level), so `convert_to_metric` does not return a pair. -/
theorem claim_C10_cex : convert_to_metric (some 0) (lit "cup") = none := by decide

/-- C10 as amended: for every non-absent *nonzero* quantity and every unit
string, `convert_to_metric` returns a `(value, unit)` pair without raising. -/
theorem claim_C10_amended : ∀ (q : ℚ) (u : Str), q ≠ 0 →
    ∃ p, convert_to_metric (some q) u = some p := by
  intro q u hq
  rw [convert_to_metric]
  cases hl : alGet (lowerStr u) CONVERSIONS with
  | none => exact ⟨(some q, u), rfl⟩
  | some mf =>
      obtain ⟨mu, f⟩ := mf
      have hf : f ≠ 0 := by
        have hmem := alGet_mem _ _ _ hl
        have hall : ∀ e ∈ CONVERSIONS, e.2.2 ≠ 0 := by decide
        exact hall _ hmem
      have hval : qMul q f ≠ 0 := by
        rw [qMul_eq]
        exact mul_ne_zero hq hf
      obtain ⟨v, hv⟩ := smart_round_total (qMul q f) mu hval
      exact ⟨(some v, mu), by simp only [hv]; rfl⟩

/-- Witness for C10 at the concrete input `(5, "bushel")`. -/
theorem claim_C10_witness : ∃ p, convert_to_metric (some 5) (lit "bushel") = some p :=
  claim_C10_amended 5 (lit "bushel") (by norm_num)

/-! String-stripping lemmas (for C4 and C5). -/

theorem head_dropWhile {α : Type} (p : α → Bool) :
    ∀ (l : List α) (a : α), (l.dropWhile p).head? = some a → p a = false := by
  intro l
  induction l with
  | nil => intro a ha; simp [List.dropWhile] at ha
  | cons c cs ih =>
      intro a ha
      by_cases hc : p c
      · rw [List.dropWhile_cons, if_pos hc] at ha
        exact ih a ha
      · rw [List.dropWhile_cons, if_neg hc] at ha
        simp only [List.head?_cons, Option.some.injEq] at ha
        subst ha
        exact Bool.not_eq_true _ ▸ (by simpa using hc)

theorem dropWhile_eq_self_of_head {α : Type} (p : α → Bool) (l : List α)
    (h : ∀ a, l.head? = some a → p a = false) : l.dropWhile p = l := by
  cases l with
  | nil => rfl
  | cons c cs =>
      rw [List.dropWhile_cons, if_neg]
      simp [h c rfl]

theorem dropWhile_idem {α : Type} (p : α → Bool) (l : List α) :
    (l.dropWhile p).dropWhile p = l.dropWhile p :=
  dropWhile_eq_self_of_head p _ (fun a ha => head_dropWhile p l a ha)

theorem stripR_isPrefix (y : Str) : stripR y <+: y := by
  rw [stripR]
  have h : y.reverse.dropWhile isSpace <:+ y.reverse := List.dropWhile_suffix _
  have := List.reverse_prefix.mpr h
  simpa using this

theorem head?_of_isPrefix {α : Type} {l₁ l₂ : List α} (h : l₁ <+: l₂)
    (hne : l₁ ≠ []) : l₁.head? = l₂.head? := by
  obtain ⟨t, rfl⟩ := h
  cases l₁ with
  | nil => exact absurd rfl hne
  | cons c cs => rfl

theorem stripR_idem (y : Str) : stripR (stripR y) = stripR y := by
  rw [stripR, stripR, List.reverse_reverse, dropWhile_idem]

theorem stripL_of_strip (t : Str) : stripL (strip t) = strip t := by
  rcases hs : strip t with _ | ⟨c, cs⟩
  · rfl
  · have hpre : strip t <+: stripL t := stripR_isPrefix _
    have hne : strip t ≠ [] := by rw [hs]; simp
    have hh : (strip t).head? = (stripL t).head? := head?_of_isPrefix hpre hne
    have hc : (stripL t).head? = some c := by rw [← hh, hs]; rfl
    have hns : isSpace c = false := head_dropWhile isSpace t c hc
    rw [← hs]
    apply dropWhile_eq_self_of_head
    intro a ha
    rw [hs] at ha
    simp only [List.head?_cons, Option.some.injEq] at ha
    subst ha
    exact hns

theorem strip_idem (t : Str) : strip (strip t) = strip t := by
  show stripR (stripL (strip t)) = strip t
  rw [stripL_of_strip]
  show stripR (stripR (stripL t)) = strip t
  rw [stripR_idem]
  rfl

/-! C4 helper lemmas: every instructions field stored by the merging passes
is already stripped. -/

theorem setIngs_instrStripped (n : Str) (v : List ParsedIngredient)
    (l : List RecipeSection) (h : instrStripped l) :
    instrStripped (setIngs n v l) := by
  rw [setIngs]
  split_ifs
  · intro s hs
    obtain ⟨s', hs', hmap⟩ := List.mem_map.mp hs
    by_cases he : s'.name = n
    · rw [if_pos he] at hmap
      rw [← hmap]
      exact h s' hs'
    · rw [if_neg he] at hmap
      rw [← hmap]
      exact h s' hs'
  · intro s hs
    rcases List.mem_append.mp hs with hmem | hmem
    · exact h s hmem
    · simp only [List.mem_singleton] at hmem
      rw [hmem]
      rfl

theorem setInstr_instrStripped (n : Str) (v : Str) (hv : strip v = v)
    (l : List RecipeSection) (h : instrStripped l) :
    instrStripped (setInstr n v l) := by
  rw [setInstr]
  split_ifs
  · intro s hs
    obtain ⟨s', hs', hmap⟩ := List.mem_map.mp hs
    by_cases he : s'.name = n
    · rw [if_pos he] at hmap
      rw [← hmap]
      exact hv
    · rw [if_neg he] at hmap
      rw [← hmap]
      exact h s' hs'
  · intro s hs
    rcases List.mem_append.mp hs with hmem | hmem
    · exact h s hmem
    · simp only [List.mem_singleton] at hmem
      rw [hmem]
      exact hv

theorem foldl_setIngs_instrStripped (ps : List (Str × Str)) :
    ∀ acc, instrStripped acc →
      instrStripped (ps.foldl
        (fun acc p => setIngs (strip p.1) (parse_ingredients p.2) acc) acc) := by
  induction ps with
  | nil => intro acc h; exact h
  | cons p ps ih =>
      intro acc h
      exact ih _ (setIngs_instrStripped _ _ _ h)

theorem foldl_setInstr_instrStripped (ps : List (Str × Str)) :
    ∀ acc, instrStripped acc →
      instrStripped (ps.foldl
        (fun acc p => setInstr (strip p.1) (strip p.2) acc) acc) := by
  induction ps with
  | nil => intro acc h; exact h
  | cons p ps ih =>
      intro acc h
      exact ih _ (setInstr_instrStripped _ _ (strip_idem _) _ h)

theorem mergeSections_instrStripped (a b : Str) :
    instrStripped (mergeSections a b) := by
  have hnil : instrStripped ([] : List RecipeSection) := by
    intro s hs; simp at hs
  simp only [mergeSections]
  by_cases ha : a = [] <;> by_cases hb : b = [] <;> simp only [ha, hb, if_true,
    if_false, ite_true, ite_false, if_pos, if_neg, not_false_iff]
  · exact hnil
  · exact foldl_setInstr_instrStripped _ _ hnil
  · exact foldl_setIngs_instrStripped _ _ hnil
  · exact foldl_setInstr_instrStripped _ _ (foldl_setIngs_instrStripped _ _ hnil)

theorem processRow_sectioned_empty {r : Row} (h1 : strip r.title ≠ [])
    (h2 : (hasSecMark r.ingredients || hasSecMark (strip r.instructions)) = true)
    (h3 : parse_sections r.ingredients (strip r.instructions) = []) :
    processRow r =
      .error (lit "Sectioned recipe must have at least one section with instructions") := by
  simp [processRow, h1, h2, h3]

/-- C4: a section whose merged instructions text is empty after trimming is
absent from `split_sections`' result even when it has ingredients (every
surviving section has instructions that are non-empty, also after
trimming); and a sectioned row in which no section survives yields one
row-scoped error `Sectioned recipe must have at least one section with
instructions` and no recipe, leaving the other rows untouched. -/
theorem claim_C4 :
    (∀ a b : Str, ∀ s ∈ parse_sections a b,
      s.instructions ≠ [] ∧ strip s.instructions ≠ []) ∧
    (∀ (rows : List Row) (i : Nat) (h : i < rows.length),
      strip (rows.get ⟨i, h⟩).title ≠ [] →
      (hasSecMark (rows.get ⟨i, h⟩).ingredients ||
        hasSecMark (strip (rows.get ⟨i, h⟩).instructions)) = true →
      parse_sections (rows.get ⟨i, h⟩).ingredients
        (strip (rows.get ⟨i, h⟩).instructions) = [] →
      (i + 2, lit "Sectioned recipe must have at least one section with instructions")
        ∈ (parse_recipe_csv rows).2 ∧
      (parse_recipe_csv rows).2.countP (fun e => e.1 == i + 2) = 1 ∧
      (parse_recipe_csv rows).1 = (parse_recipe_csv (rows.eraseIdx i)).1) := by
  constructor
  · intro a b s hs
    rw [parse_sections] at hs
    have hmem := List.mem_filter.mp hs
    have hne : s.instructions ≠ [] := by
      have := hmem.2
      simpa using this
    refine ⟨hne, ?_⟩
    rw [mergeSections_instrStripped a b s hmem.1]
    exact hne
  · intro rows i h h1 h2 h3
    have herr := processRow_sectioned_empty h1 h2 h3
    refine ⟨?_, ?_, ?_⟩
    · have := parseFrom_err_mem 2 rows i h _ herr
      simpa [Nat.add_comm] using this
    · have := parseFrom_err_count 2 rows i h _ herr
      simpa [Nat.add_comm] using this
    · rw [parse_recipe_csv, parse_recipe_csv, parseFrom_fst, parseFrom_fst]
      refine filterMap_eraseIdx rowOk rows i h ?_
      rw [rowOk, herr]
      rfl

/-- Witness for C4 at concrete inputs: a section with ingredients but blank
instructions is dropped, and the sectioned row `c4row` (whose only section
has no instructions) yields exactly the sectioned-recipe error. -/
theorem claim_C4_witness :
    ((⟨lit "Shell", [⟨some 2, some (lit "cups"), lit "flour", none, false⟩],
          []⟩ : RecipeSection)
        ∈ mergeSections (lit "[Shell]2 cups flour") [] ∧
      parse_sections (lit "[Shell]2 cups flour") [] = []) ∧
    (0 + 2, lit "Sectioned recipe must have at least one section with instructions")
      ∈ (parse_recipe_csv [c4row]).2 ∧
    (parse_recipe_csv [c4row]).2.countP (fun e => e.1 == 0 + 2) = 1 ∧
    (parse_recipe_csv [c4row]).1 = (parse_recipe_csv ([c4row].eraseIdx 0)).1 := by
  refine ⟨by decide, ?_⟩
  exact claim_C4.2 [c4row] 0 (by norm_num) (by decide) (by decide) (by decide)

/-! C6 helper lemmas: the fold of `min(thresholds, key=…)` returns a member
achieving the minimal distance, and Python's bankers' rounding returns a
nearest integer. -/

theorem foldl_min_mem (v : ℚ) :
    ∀ (xs : List ℚ) (best : ℚ),
      (xs.foldl (fun best y =>
        if qAbs (qSub y v) < qAbs (qSub best v) then y else best) best) = best ∨
      (xs.foldl (fun best y =>
        if qAbs (qSub y v) < qAbs (qSub best v) then y else best) best) ∈ xs := by
  intro xs
  induction xs with
  | nil => intro best; left; rfl
  | cons y ys ih =>
      intro best
      rw [List.foldl_cons]
      by_cases hc : qAbs (qSub y v) < qAbs (qSub best v)
      · rw [if_pos hc]
        rcases ih y with h | h
        · right; rw [h]; exact List.mem_cons_self _ _
        · right; exact List.mem_cons_of_mem _ h
      · rw [if_neg hc]
        rcases ih best with h | h
        · left; exact h
        · right; exact List.mem_cons_of_mem _ h

theorem foldl_min_le (v : ℚ) :
    ∀ (xs : List ℚ) (best : ℚ),
      |(xs.foldl (fun best y =>
          if qAbs (qSub y v) < qAbs (qSub best v) then y else best) best) - v| ≤
        |best - v| ∧
      ∀ x ∈ xs,
        |(xs.foldl (fun best y =>
            if qAbs (qSub y v) < qAbs (qSub best v) then y else best) best) - v| ≤
          |x - v| := by
  intro xs
  induction xs with
  | nil =>
      intro best
      exact ⟨le_refl _, by intro x hx; simp at hx⟩
  | cons y ys ih =>
      intro best
      rw [List.foldl_cons]
      by_cases hc : qAbs (qSub y v) < qAbs (qSub best v)
      · rw [if_pos hc]
        rw [qAbs_eq, qSub_eq, qAbs_eq, qSub_eq] at hc
        obtain ⟨h1, h2⟩ := ih y
        refine ⟨h1.trans (le_of_lt hc), ?_⟩
        intro x hx
        rcases List.mem_cons.mp hx with rfl | hmem
        · exact h1
        · exact h2 x hmem
      · rw [if_neg hc]
        rw [qAbs_eq, qSub_eq, qAbs_eq, qSub_eq] at hc
        obtain ⟨h1, h2⟩ := ih best
        refine ⟨h1, ?_⟩
        intro x hx
        rcases List.mem_cons.mp hx with rfl | hmem
        · exact h1.trans (not_lt.mp hc)
        · exact h2 x hmem

theorem minByAbs_spec (l : List ℚ) (v : ℚ) (hne : l ≠ []) :
    minByAbs l v ∈ l ∧ ∀ x ∈ l, |minByAbs l v - v| ≤ |x - v| := by
  cases l with
  | nil => exact absurd rfl hne
  | cons x xs =>
      rw [minByAbs]
      constructor
      · rcases foldl_min_mem v xs x with h | h
        · rw [h]; exact List.mem_cons_self _ _
        · exact List.mem_cons_of_mem _ h
      · intro y hy
        obtain ⟨h1, h2⟩ := foldl_min_le v xs x
        rcases List.mem_cons.mp hy with rfl | hmem
        · exact h1
        · exact h2 y hmem

theorem pyRound_def (x : ℚ) : pyRound x =
    if x - (⌊x⌋ : ℚ) < 1/2 then ⌊x⌋
    else if (1 : ℚ)/2 < x - (⌊x⌋ : ℚ) then ⌊x⌋ + 1
    else if ⌊x⌋ % 2 = 0 then ⌊x⌋ else ⌊x⌋ + 1 := by
  have hhalf : Rat.divInt 1 2 = (1 : ℚ)/2 := by
    rw [Rat.divInt_eq_div]; norm_num
  have hcast : Rat.divInt (qFloor x) 1 = ((⌊x⌋ : ℤ) : ℚ) := by
    rw [qFloor_eq, Rat.divInt_one]
  simp only [pyRound, qSub_eq, hcast, hhalf, qFloor_eq, Rat.divInt_one]

theorem pyRound_nearest (x : ℚ) (k : ℤ) :
    |((pyRound x : ℤ) : ℚ) - x| ≤ |(k : ℚ) - x| := by
  have hf1 : ((⌊x⌋ : ℤ) : ℚ) ≤ x := Int.floor_le x
  have hf2 : x < (⌊x⌋ : ℚ) + 1 := Int.lt_floor_add_one x
  have hk : (k : ℚ) ≤ (⌊x⌋ : ℚ) ∨ ((⌊x⌋ : ℚ) + 1 ≤ (k : ℚ)) := by
    rcases le_or_lt k ⌊x⌋ with h | h
    · left; exact_mod_cast h
    · right; exact_mod_cast h
  rw [pyRound_def]
  rcases lt_trichotomy (x - (⌊x⌋ : ℚ)) (1/2) with h | h | h
  · rw [if_pos h]
    have hd : |((⌊x⌋ : ℤ) : ℚ) - x| = x - (⌊x⌋ : ℚ) := by
      rw [abs_sub_comm, abs_of_nonneg (by linarith)]
    rw [hd]
    rcases hk with hk | hk
    · rw [abs_sub_comm, abs_of_nonneg (by linarith)]
      linarith
    · rw [abs_of_nonneg (by linarith)]
      linarith
  · rw [if_neg (by rw [h]; exact lt_irrefl _), if_neg (by rw [← h]; exact lt_irrefl _)]
    have hd : ∀ m : ℤ, (m = ⌊x⌋ ∨ m = ⌊x⌋ + 1) → |((m : ℤ) : ℚ) - x| = 1/2 := by
      intro m hm
      rcases hm with rfl | rfl
      · rw [abs_sub_comm, abs_of_nonneg (by linarith)]; linarith
      · push_cast
        rw [abs_of_nonneg (by linarith)]; linarith
    have hgoal : ∀ m : ℤ, (m = ⌊x⌋ ∨ m = ⌊x⌋ + 1) →
        |((m : ℤ) : ℚ) - x| ≤ |(k : ℚ) - x| := by
      intro m hm
      rw [hd m hm]
      rcases hk with hk | hk
      · rw [abs_sub_comm, abs_of_nonneg (by linarith)]
        linarith
      · rw [abs_of_nonneg (by linarith)]
        linarith
    split_ifs
    · exact hgoal _ (Or.inl rfl)
    · exact hgoal _ (Or.inr rfl)
  · rw [if_neg (by linarith), if_pos h]
    have hd : |(((⌊x⌋ + 1 : ℤ)) : ℚ) - x| = (⌊x⌋ : ℚ) + 1 - x := by
      push_cast
      rw [abs_of_nonneg (by linarith)]
    push_cast
    push_cast at hd
    rw [hd]
    rcases hk with hk | hk
    · rw [abs_sub_comm, abs_of_nonneg (by linarith)]
      linarith
    · rw [abs_of_nonneg (by linarith)]
      linarith

theorem pyRound_mult5_nearest (x : ℚ) (k : ℤ) :
    |((5 * pyRound (x / 5) : ℤ) : ℚ) - x| ≤ |5 * (k : ℚ) - x| := by
  have h5 : ((5 * pyRound (x / 5) : ℤ) : ℚ) - x =
      5 * (((pyRound (x / 5) : ℤ) : ℚ) - x / 5) := by push_cast; ring
  have h5' : 5 * (k : ℚ) - x = 5 * ((k : ℚ) - x / 5) := by ring
  rw [h5, h5', abs_mul, abs_mul]
  have := pyRound_nearest (x / 5) k
  have h5abs : |(5 : ℚ)| = 5 := by norm_num
  rw [h5abs]
  linarith

theorem pyRound1_nearest (x : ℚ) (k : ℤ) :
    |pyRound1 x - x| ≤ |(k : ℚ) / 10 - x| := by
  have hp : pyRound1 x = ((pyRound (10 * x) : ℤ) : ℚ) / 10 := by
    rw [pyRound1, Rat.divInt_eq_div]
    have : qMul x 10 = 10 * x := by rw [qMul_eq]; ring
    rw [this]
    norm_num
  have h1 : pyRound1 x - x = (((pyRound (10 * x) : ℤ) : ℚ) - 10 * x) / 10 := by
    rw [hp]; ring
  have h2 : (k : ℚ) / 10 - x = ((k : ℚ) - 10 * x) / 10 := by ring
  rw [h1, h2, abs_div, abs_div]
  have := pyRound_nearest (10 * x) k
  have h10 : |(10 : ℚ)| = 10 := by norm_num
  rw [h10]
  linarith

/-- The characterisation of `smart_round_metric` at a positive raw value
with a threshold table: the result snaps to a closest threshold exactly
when the closest threshold is within 15% relative distance, and otherwise
is the coarse rounding of the claim. -/
theorem smart_round_spec (value : ℚ) (mu : Str) (th : List ℚ)
    (hth : alGet mu METRIC_ROUND_VALUES = some th) (hpos : 0 < value)
    (hne : th ≠ []) :
    ∃ v, smart_round_metric value mu = some v ∧
      ((∃ t, isNearestThreshold th value t ∧ |t - value| ≤ 15/100 * value) →
        isNearestThreshold th value v ∧ |v - value| ≤ 15/100 * value) ∧
      ((∀ t, isNearestThreshold th value t → 15/100 * value < |t - value|) →
        coarseRoundSpec value v) := by
  obtain ⟨hmem, hmin⟩ := minByAbs_spec th value hne
  have hclosest : isNearestThreshold th value (minByAbs th value) := ⟨hmem, hmin⟩
  have hv0 : value ≠ 0 := ne_of_gt hpos
  rw [smart_round_metric, hth]
  simp only [if_neg hv0]
  have hcond : (qDiv (qAbs (qSub (minByAbs th value) value)) value ≤
      Rat.divInt 15 100) ↔ |minByAbs th value - value| ≤ 15/100 * value := by
    rw [qDiv_eq, qAbs_eq, qSub_eq, show Rat.divInt 15 100 = (15 : ℚ)/100 from by
      rw [Rat.divInt_eq_div]; norm_num]
    rw [div_le_iff₀ hpos, mul_comm]
  by_cases hsnap : qDiv (qAbs (qSub (minByAbs th value) value)) value ≤
      Rat.divInt 15 100
  · rw [if_pos hsnap]
    refine ⟨minByAbs th value, rfl, ?_, ?_⟩
    · intro _
      exact ⟨hclosest, hcond.mp hsnap⟩
    · intro hall
      exact absurd (hcond.mp hsnap) (not_le.mpr (hall _ hclosest))
  · rw [if_neg hsnap]
    have hfar : 15/100 * value < |minByAbs th value - value| :=
      not_le.mp (fun h => hsnap (hcond.mpr h))
    have hvac : ∀ w : ℚ,
        ((∃ t, isNearestThreshold th value t ∧ |t - value| ≤ 15/100 * value) →
          isNearestThreshold th value w ∧ |w - value| ≤ 15/100 * value) := by
      intro w ⟨t, ht, htb⟩
      exact absurd htb (not_le.mpr (lt_of_lt_of_le hfar (hmin t ht.1)))
    by_cases h100 : Rat.divInt 100 1 ≤ value
    · rw [if_pos h100]
      have h100' : (100 : ℚ) ≤ value := by
        rw [show ((100 : ℚ) = Rat.divInt 100 1) from by rw [Rat.divInt_one]; norm_num]
        exact h100
      refine ⟨_, rfl, hvac _, ?_⟩
      intro _
      have hval : Rat.divInt (5 * pyRound (qDiv value 5)) 1 =
          ((5 * pyRound (value / 5) : ℤ) : ℚ) := by
        rw [qDiv_eq, Rat.divInt_one]
      refine ⟨?_, ?_, ?_⟩
      · intro _
        constructor
        · exact ⟨pyRound (value / 5), by rw [hval]; push_cast; ring⟩
        · intro k
          rw [hval]
          exact pyRound_mult5_nearest value k
      · intro ⟨_, hlt⟩
        exact absurd h100' (not_le.mpr hlt)
      · intro hlt
        exact absurd h100' (not_le.mpr (by linarith))
    · rw [if_neg h100]
      have h100' : value < 100 := by
        have := not_le.mp h100
        rw [show ((100 : ℚ) = Rat.divInt 100 1) from by
          rw [Rat.divInt_one]; norm_num]
        exact_mod_cast this
      by_cases h10 : Rat.divInt 10 1 ≤ value
      · rw [if_pos h10]
        have h10' : (10 : ℚ) ≤ value := by
          rw [show ((10 : ℚ) = Rat.divInt 10 1) from by rw [Rat.divInt_one]; norm_num]
          exact h10
        refine ⟨_, rfl, hvac _, ?_⟩
        intro _
        refine ⟨?_, ?_, ?_⟩
        · intro h
          exact absurd h100' (not_lt.mpr h)
        · intro _
          constructor
          · exact ⟨pyRound value, by rw [Rat.divInt_one]⟩
          · intro k
            rw [Rat.divInt_one]
            exact pyRound_nearest value k
        · intro hlt
          exact absurd h10' (not_le.mpr hlt)
      · rw [if_neg h10]
        have h10' : value < 10 := by
          have := not_le.mp h10
          rw [show ((10 : ℚ) = Rat.divInt 10 1) from by
            rw [Rat.divInt_one]; norm_num]
          exact_mod_cast this
        refine ⟨_, rfl, hvac _, ?_⟩
        intro _
        refine ⟨?_, ?_, ?_⟩
        · intro h
          exact absurd h10' (not_lt.mpr (by linarith))
        · intro ⟨h, _⟩
          exact absurd h10' (not_lt.mpr (by linarith))
        · intro _
          constructor
          · refine ⟨pyRound (qMul value 10), ?_⟩
            rw [pyRound1, Rat.divInt_eq_div]
            norm_num
          · intro k
            have hq : qMul value 10 = 10 * value := by rw [qMul_eq]; ring
            have := pyRound1_nearest value k
            rw [pyRound1] at this ⊢
            rw [hq]
            have hq2 : qMul value 10 = 10 * value := hq
            convert this using 3
            rw [hq2]
  
/-- C6 counterexample: at quantity `-1` of a cup the code snaps to the
threshold `5 ml` although the relative distance of that threshold from the
raw product `-236.588 ml` is far more than 15% (the source divides by the
signed raw value, making the 15% test vacuously true for negative values),
where the claim's fallback would round to one decimal place. -/
theorem claim_C6_cex :
    convert_to_metric (some (-1)) (lit "cup") = some (some 5, lit "ml") ∧
    (15 : ℚ)/100 * |(-1 : ℚ) * (236588/1000)| < |5 - (-1 : ℚ) * (236588/1000)| ∧
    (5 : ℚ) ≠ pyRound1 ((-1 : ℚ) * (236588/1000)) := by
  refine ⟨by decide, ?_, ?_⟩
  · rw [abs_of_neg (by norm_num : (-1 : ℚ) * (236588/1000) < 0),
      abs_of_pos (by norm_num : (0 : ℚ) < 5 - (-1 : ℚ) * (236588/1000))]
    norm_num
  have h : (-1 : ℚ) * (236588/1000) = Rat.divInt (-236588) 1000 := by
    rw [Rat.divInt_eq_div]; norm_num
  rw [h]
  decide

/-- C6 as amended (restricted to positive quantities, which the original
claim's 15%-relative-distance reading presupposes): for every US unit in
the conversion table the metric target has a threshold table, and the
converted value snaps to the closest threshold exactly when that
threshold's distance from the raw product is at most 15% of it, otherwise
rounding to a nearest multiple of 5 at raw ≥ 100, a nearest integer at raw
≥ 10, and a nearest tenth below 10. -/
theorem claim_C6 : ∀ (u : Str) (q : ℚ) (mu : Str) (f : ℚ), 0 < q →
    alGet (lowerStr u) CONVERSIONS = some (mu, f) →
    ∃ (th : List ℚ) (v : ℚ), alGet mu METRIC_ROUND_VALUES = some th ∧
      convert_to_metric (some q) u = some (some v, mu) ∧
      ((∃ t, isNearestThreshold th (q * f) t ∧ |t - q * f| ≤ 15/100 * (q * f)) →
        isNearestThreshold th (q * f) v ∧ |v - q * f| ≤ 15/100 * (q * f)) ∧
      ((∀ t, isNearestThreshold th (q * f) t → 15/100 * (q * f) < |t - q * f|) →
        coarseRoundSpec (q * f) v) := by
  intro u q mu f hq hl
  have hmem := alGet_mem _ _ _ hl
  have hfpos : 0 < f := by
    have hall : ∀ e ∈ CONVERSIONS, 0 < e.2.2 := by decide
    exact hall _ hmem
  have hth : ∃ th, alGet mu METRIC_ROUND_VALUES = some th ∧ th ≠ [] := by
    have hall : ∀ e ∈ CONVERSIONS,
        ∃ th, alGet e.2.1 METRIC_ROUND_VALUES = some th ∧ th ≠ [] := by decide
    exact hall _ hmem
  obtain ⟨th, hth, hthne⟩ := hth
  have hraw : 0 < q * f := mul_pos hq hfpos
  have hqmul : qMul q f = q * f := qMul_eq q f
  obtain ⟨v, hv, hsnap, hcoarse⟩ := smart_round_spec (qMul q f) mu th hth
    (by rw [hqmul]; exact hraw) hthne
  refine ⟨th, v, hth, ?_, ?_, ?_⟩
  · rw [convert_to_metric, hl]
    simp only [hv]
    rfl
  · rw [← hqmul]
    exact hsnap
  · rw [← hqmul]
    exact hcoarse

/-- Witness for C6 at the concrete input `(1, "cup")`. -/
theorem claim_C6_witness :
    ∃ (th : List ℚ) (v : ℚ),
      alGet (lit "ml") METRIC_ROUND_VALUES = some th ∧
      convert_to_metric (some 1) (lit "cup") = some (some v, lit "ml") ∧
      ((∃ t, isNearestThreshold th (1 * Rat.divInt 236588 1000) t ∧
          |t - 1 * Rat.divInt 236588 1000| ≤
            15/100 * (1 * Rat.divInt 236588 1000)) →
        isNearestThreshold th (1 * Rat.divInt 236588 1000) v ∧
          |v - 1 * Rat.divInt 236588 1000| ≤
            15/100 * (1 * Rat.divInt 236588 1000)) ∧
      ((∀ t, isNearestThreshold th (1 * Rat.divInt 236588 1000) t →
          15/100 * (1 * Rat.divInt 236588 1000) < |t - 1 * Rat.divInt 236588 1000|) →
        coarseRoundSpec (1 * Rat.divInt 236588 1000) v) :=
  claim_C6 (lit "cup") 1 (lit "ml") (Rat.divInt 236588 1000) one_pos (by decide)

/-! C5 helper lemmas: the name captured by a successful match is a
non-empty suffix of the working text, and the working text never ends in
whitespace. -/

theorem getLast?_of_suffix {α : Type} {l₁ l₂ : List α} (h : l₁ <:+ l₂)
    (hne : l₁ ≠ []) : l₁.getLast? = l₂.getLast? := by
  obtain ⟨pre, rfl⟩ := h
  exact (List.getLast?_append_of_ne_nil pre hne).symm

theorem finalPiece_spec (p g : Str) (h : finalPiece p = some g) :
    (g = p ∧ p ≠ []) ∨ (g = p.dropLast ∧ p.getLast? = some '\n') := by
  rw [finalPiece] at h
  by_cases h1 : p = []
  · rw [if_pos h1] at h
    exact absurd h (by simp)
  · rw [if_neg h1] at h
    by_cases h2 : ¬ p.contains '\n' = true
    · rw [if_pos h2] at h
      simp only [Option.some.injEq] at h
      exact Or.inl ⟨h.symm, h1⟩
    · rw [if_neg h2] at h
      by_cases h3 : p.getLast? = some '\n' ∧ ¬ p.dropLast.contains '\n' = true ∧
          p.dropLast ≠ []
      · rw [if_pos h3] at h
        simp only [Option.some.injEq] at h
        exact Or.inr ⟨h.symm, h3.1⟩
      · rw [if_neg h3] at h
        exact absurd h (by simp)

theorem tailTry_spec (r : Str) :
    ∀ (j : Nat) (g : Str), tailTry r j = some g →
      ∃ k, finalPiece (r.drop k) = some g := by
  intro j
  induction j with
  | zero => intro g h; simp [tailTry] at h
  | succ j ih =>
      intro g h
      rw [tailTry] at h
      cases hf : finalPiece (r.drop (j + 1)) with
      | some g' =>
          rw [hf] at h
          injection h with h
          exact ⟨j + 1, by rw [hf, h]⟩
      | none =>
          rw [hf] at h
          exact ih g h

theorem tailMatch_spec (r g : Str) (h : tailMatch r = some g) :
    ∃ k, finalPiece (r.drop k) = some g :=
  tailTry_spec r _ g h

theorem unitTry_spec (t : Str) :
    ∀ (us : List Str) (a g : Str), unitTry t us = some (a, g) →
      ∃ m, tailMatch (t.drop m) = some g := by
  intro us
  induction us with
  | nil => intro a g h; simp [unitTry] at h
  | cons u us ih =>
      intro a g h
      rw [unitTry] at h
      by_cases hp : insensPfx u t
      · rw [if_pos hp] at h
        cases ht : tailMatch (t.drop u.length) with
        | some g' =>
            rw [ht] at h
            simp only [Option.some.injEq, Prod.mk.injEq] at h
            exact ⟨u.length, by rw [ht, h.2]⟩
        | none =>
            rw [ht] at h
            exact ih a g h
      · rw [if_neg hp] at h
        exact ih a g h

theorem g2tail_spec (t : Str) (u : Option Str) (g : Str)
    (h : g2tail t = some (u, g)) : ∃ m, tailMatch (t.drop m) = some g := by
  rw [g2tail] at h
  cases hu : unitTry t units with
  | some p =>
      obtain ⟨a, g'⟩ := p
      rw [hu] at h
      simp only [Option.some.injEq, Prod.mk.injEq] at h
      exact unitTry_spec t units a g (by rw [hu, h.2])
  | none =>
      rw [hu] at h
      cases ht : tailMatch t with
      | some g' =>
          rw [ht] at h
          simp only [Option.some.injEq, Prod.mk.injEq] at h
          exact ⟨0, by rw [List.drop_zero, ht, h.2]⟩
      | none => rw [ht] at h; exact absurd h (by simp)

theorem starTry_spec (t : Str) :
    ∀ (m : Nat) (u : Option Str) (g : Str), starTry t m = some (u, g) →
      ∃ j, finalPiece (t.drop j) = some g := by
  intro m
  induction m with
  | zero =>
      intro u g h
      rw [starTry] at h
      obtain ⟨j, hj⟩ := g2tail_spec t u g h
      obtain ⟨k, hk⟩ := tailMatch_spec _ g hj
      rw [List.drop_drop] at hk
      exact ⟨j + k, hk⟩
  | succ m ih =>
      intro u g h
      rw [starTry] at h
      cases hg : g2tail (t.drop (m + 1)) with
      | some res =>
          obtain ⟨u', g'⟩ := res
          rw [hg] at h
          simp only [Option.some.injEq, Prod.mk.injEq] at h
          obtain ⟨j, hj⟩ := g2tail_spec _ u' g' hg
          obtain ⟨k, hk⟩ := tailMatch_spec _ _ hj
          rw [List.drop_drop, List.drop_drop] at hk
          exact ⟨_, by rw [hk, h.2]⟩
      | none =>
          rw [hg] at h
          exact ih u g h

theorem qtyTry_spec (t : Str) :
    ∀ (n : Nat) (q : Str) (u : Option Str) (g : Str),
      qtyTry t n = some (q, u, g) → ∃ j, finalPiece (t.drop j) = some g := by
  intro n
  induction n with
  | zero => intro q u g h; simp [qtyTry] at h
  | succ n ih =>
      intro q u g h
      rw [qtyTry] at h
      cases hs : starTry (t.drop (n + 1)) (wsRunLen (t.drop (n + 1))) with
      | some res =>
          obtain ⟨u', g'⟩ := res
          rw [hs] at h
          simp only [Option.some.injEq, Prod.mk.injEq] at h
          obtain ⟨j, hj⟩ := starTry_spec _ _ u' g' hs
          rw [List.drop_drop] at hj
          exact ⟨_, by rw [hj, h.2.2]⟩
      | none =>
          rw [hs] at h
          exact ih q u g h

theorem matchIngredient_g3 (t : Str) (q u : Option Str) (g : Str)
    (h : matchIngredient t = some (q, u, g)) :
    ∃ j, finalPiece (t.drop j) = some g := by
  rw [matchIngredient] at h
  cases hq : qtyTry t (classRunLen t) with
  | some res =>
      obtain ⟨q', u', g'⟩ := res
      rw [hq] at h
      simp only [Option.some.injEq, Prod.mk.injEq] at h
      obtain ⟨j, hj⟩ := qtyTry_spec t _ q' u' g' hq
      exact ⟨j, by rw [hj, h.2.2]⟩
  | none =>
      rw [hq] at h
      cases hs : starTry t (wsRunLen t) with
      | some res =>
          obtain ⟨u', g'⟩ := res
          rw [hs] at h
          simp only [Option.some.injEq, Prod.mk.injEq] at h
          obtain ⟨j, hj⟩ := starTry_spec t _ u' g' hs
          exact ⟨j, by rw [hj, h.2.2]⟩
      | none => rw [hs] at h; exact absurd h (by simp)

theorem lastNotSpace_nil : lastNotSpace [] := by
  intro c hc; simp at hc

theorem lastNotSpace_suffix {t t' : Str} (hs : t' <:+ t) (h : lastNotSpace t) :
    lastNotSpace t' := by
  intro c hc
  have hne : t' ≠ [] := by
    intro he; rw [he] at hc; simp at hc
  rw [getLast?_of_suffix hs hne] at hc
  exact h c hc

theorem strip_lastNotSpace (t : Str) : lastNotSpace (strip t) := by
  intro c hc
  have hform : (strip t).getLast? = ((stripL t).reverse.dropWhile isSpace).head? := by
    rw [strip, stripR, List.getLast?_reverse]
  rw [hform] at hc
  exact head_dropWhile isSpace _ c hc

theorem getLast?_mem {α : Type} {l : List α} {c : α} (h : l.getLast? = some c) :
    c ∈ l := by
  obtain ⟨ys, rfl⟩ := List.getLast?_eq_some_iff.mp h
  simp

theorem strip_ne_nil_of_lastNotSpace (l : Str) (hne : l ≠ []) (h : lastNotSpace l) :
    strip l ≠ [] := by
  intro hstrip
  have hLne : stripL l ≠ [] := by
    intro hL
    have hall : ∀ x ∈ l, isSpace x := List.dropWhile_eq_nil_iff.mp hL
    rcases hgl : l.getLast? with _ | c
    · exact hne (List.getLast?_eq_none_iff.mp hgl)
    · have h1 := h c hgl
      have h2 := hall c (getLast?_mem hgl)
      rw [h1] at h2
      exact Bool.false_ne_true h2
  have hallL : ∀ x ∈ (stripL l).reverse, isSpace x := by
    apply List.dropWhile_eq_nil_iff.mp
    rw [strip, stripR] at hstrip
    exact List.reverse_eq_nil_iff.mp hstrip
  have hsuf : stripL l <:+ l := List.dropWhile_suffix _
  rcases hgl : (stripL l).getLast? with _ | c
  · exact hLne (List.getLast?_eq_none_iff.mp hgl)
  · have h1 : isSpace c = false := by
      rw [getLast?_of_suffix hsuf hLne] at hgl
      exact h c hgl
    have h2 : isSpace c = true := hallL c (by
      rw [List.mem_reverse]
      exact getLast?_mem hgl)
    rw [h1] at h2
    exact Bool.false_ne_true h2

theorem wsRunLen_cons_space {c : Char} (cs : Str) (hc : isSpace c = true) :
    wsRunLen (c :: cs) = wsRunLen cs + 1 := by
  rw [wsRunLen, wsRunLen, List.takeWhile_cons, hc]
  simp [Nat.add_comm]

theorem matchCond_cons_space {c : Char} (cs : Str) (hc : isSpace c = true) :
    insensPfx (lit "(optional)") ((c :: cs).drop (wsRunLen (c :: cs))) =
      insensPfx (lit "(optional)") (cs.drop (wsRunLen cs)) := by
  rw [wsRunLen_cons_space cs hc, List.drop_succ_cons]

theorem subOptGo_nil_cond (fuel : Nat) (d : Char) (ds : Str)
    (h : subOptGo (fuel + 1) (d :: ds) = []) :
    insensPfx (lit "(optional)") ((d :: ds).drop (wsRunLen (d :: ds))) = true := by
  by_cases hcond : insensPfx (lit "(optional)") ((d :: ds).drop (wsRunLen (d :: ds))) =
      true
  · exact hcond
  · rw [subOptGo] at h
    rw [if_neg (by simpa using hcond)] at h
    exact absurd h (by simp)

theorem subOptGo_lastNotSpace : ∀ (fuel : Nat) (t : Str), t.length ≤ fuel →
    lastNotSpace t → lastNotSpace (subOptGo fuel t) := by
  intro fuel
  induction fuel with
  | zero =>
      intro t _ _
      rw [show subOptGo 0 t = [] from by cases t <;> rfl]
      exact lastNotSpace_nil
  | succ fuel ih =>
      intro t hlen h
      cases t with
      | nil => exact h
      | cons c cs =>
          rw [subOptGo]
          by_cases hcond : insensPfx (lit "(optional)")
              ((c :: cs).drop (wsRunLen (c :: cs))) = true
          · rw [if_pos hcond]
            have hsuf1 : ((c :: cs).drop (wsRunLen (c :: cs))).drop 10 <:+ (c :: cs) := by
              rw [List.drop_drop]
              exact List.drop_suffix _ _
            have hsuf : ((((c :: cs).drop (wsRunLen (c :: cs))).drop 10).drop
                (wsRunLen (((c :: cs).drop (wsRunLen (c :: cs))).drop 10)))
                <:+ (c :: cs) := by
              rw [List.drop_drop, List.drop_drop]
              exact List.drop_suffix _ _
            apply ih
            · rw [List.drop_drop, List.drop_drop, List.length_drop]
              simp only [List.length_cons] at hlen ⊢
              omega
            · exact lastNotSpace_suffix hsuf h
          · rw [if_neg hcond]
            intro a ha
            cases hX : subOptGo fuel cs with
            | nil =>
                rw [hX] at ha
                have hcc : ((c :: []) : Str).getLast? = some c := rfl
                rw [hcc] at ha
                injection ha with ha
                subst ha
                by_cases hsp : isSpace c = true
                · exfalso
                  cases cs with
                  | nil =>
                      have hf : isSpace c = false := h c rfl
                      rw [hf] at hsp
                      exact Bool.false_ne_true hsp
                  | cons d ds =>
                      cases fuel with
                      | zero =>
                          simp only [List.length_cons] at hlen
                          omega
                      | succ f =>
                          have hcond2 := subOptGo_nil_cond f d ds hX
                          rw [matchCond_cons_space (d :: ds) hsp] at hcond
                          exact hcond hcond2
                · exact (Bool.not_eq_true _) ▸ hsp
            | cons y ys =>
                rw [hX] at ha
                rw [List.getLast?_cons_cons] at ha
                have hcs : lastNotSpace cs :=
                  lastNotSpace_suffix ⟨[c], rfl⟩ h
                have hlen' : cs.length ≤ fuel := by
                  simp only [List.length_cons] at hlen
                  omega
                have := ih cs hlen' hcs
                rw [hX] at this
                exact this a ha

theorem workText_lastNotSpace (text : Str) : lastNotSpace (workText text) := by
  simp only [workText, ingPre]
  have ht1 : lastNotSpace (if containsSub (lit "(optional)")
      (lowerStr (strip text)) = true then subOptional (strip text)
      else strip text) := by
    split_ifs
    · exact subOptGo_lastNotSpace _ _ le_rfl (strip_lastNotSpace text)
    · exact strip_lastNotSpace text
  cases hsp : splitFirst ','
      (if containsSub (lit "(optional)") (lowerStr (strip text)) = true then
        subOptional (strip text) else strip text) with
  | some p =>
      obtain ⟨l, r⟩ := p
      simp only [hsp]
      exact strip_lastNotSpace l
  | none =>
      simp only [hsp]
      exact ht1

/-- C5 counterexample: `parse_single_ingredient("(optional)")` returns an
empty name (the invariant fails) with `is_optional = true` although the
quantity/unit pattern did not match; and on `"butter, melted"` the pattern
does not match the working text `"butter"` yet `preparation` is set, not
absent. -/
theorem claim_C5_cex :
    strip (parse_single_ingredient (lit "(optional)")).name = [] ∧
    (parse_single_ingredient (lit "(optional)")).is_optional = true ∧
    matchIngredient (workText (lit "(optional)")) = none ∧
    (parse_single_ingredient (lit "butter, melted")).preparation =
      some (lit "melted") ∧
    matchIngredient (workText (lit "butter, melted")) = none := by decide

/-- C5 as amended: the parsed `name` is non-empty after trimming provided
the working text (the input after stripping, optional-marker removal and
the comma split) is non-empty after trimming; and when the quantity/unit
pattern does not match, the entire working text becomes the name verbatim
with `quantity` and `unit` absent (while `preparation` and `is_optional`
keep the values extracted by the earlier steps). -/
theorem claim_C5 : ∀ text : Str,
    (strip (workText text) ≠ [] → strip (parse_single_ingredient text).name ≠ []) ∧
    (matchIngredient (workText text) = none →
      (parse_single_ingredient text).name = workText text ∧
      (parse_single_ingredient text).quantity = none ∧
      (parse_single_ingredient text).unit = none) := by
  intro text
  constructor
  · intro hw
    have hw' : strip (ingPre text).1 ≠ [] := hw
    have hwn : lastNotSpace (ingPre text).1 := workText_lastNotSpace text
    cases hm : matchIngredient (ingPre text).1 with
    | none =>
        have hname : (parse_single_ingredient text).name = (ingPre text).1 := by
          simp only [parse_single_ingredient, hm]
        rw [hname]
        exact hw'
    | some res =>
        obtain ⟨q, u, g⟩ := res
        have hname : (parse_single_ingredient text).name = strip g := by
          simp only [parse_single_ingredient, hm]
        rw [hname, strip_idem]
        obtain ⟨j, hj⟩ := matchIngredient_g3 _ q u g hm
        rcases finalPiece_spec _ _ hj with ⟨rfl, hne⟩ | ⟨rfl, hlast⟩
        · exact strip_ne_nil_of_lastNotSpace _ hne
            (lastNotSpace_suffix (List.drop_suffix _ _) hwn)
        · exfalso
          have hpne : (ingPre text).1.drop j ≠ [] := by
            intro he
            rw [he] at hlast
            simp at hlast
          have := lastNotSpace_suffix (List.drop_suffix j (ingPre text).1) hwn
          have hsp := this '\n' hlast
          simp [isSpace] at hsp
  · intro hm
    have hm' : matchIngredient (ingPre text).1 = none := hm
    refine ⟨?_, ?_, ?_⟩ <;> simp only [parse_single_ingredient, workText, hm']

/-- Witness for C5 at concrete inputs: a matching line (`"2 cups flour"`)
has a non-empty name, and a non-matching line (`"salt to taste"`) becomes
the name verbatim with quantity and unit absent. -/
theorem claim_C5_witness :
    strip (parse_single_ingredient (lit "2 cups flour")).name ≠ [] ∧
    ((parse_single_ingredient (lit "salt to taste")).name =
        workText (lit "salt to taste") ∧
      (parse_single_ingredient (lit "salt to taste")).quantity = none ∧
      (parse_single_ingredient (lit "salt to taste")).unit = none) :=
  ⟨(claim_C5 (lit "2 cups flour")).1 (by decide),
    (claim_C5 (lit "salt to taste")).2 (by decide)⟩
